import Mathlib

/-!
# qtethernet: field parsers and Ethernet II frame construction

A shallow embedding of `src/mainwindow.cpp`: the three static parsers
(`parseMac`, `parseEtherType`, `parseHexPayload`), `MainWindow::sendFrame` and
`MainWindow::refreshAdapters`.

Conventions of the embedding.

* A `QString` is a list of characters.  Qt stores UTF-16 code units; a Lean
  `Char` is a code point, so the embedding covers the well-formed strings.  A
  character outside the Basic Multilingual Plane is neither white space, a
  colon, a sign nor a digit, and every parser below fails on a text containing
  one whichever way its length is counted.
* A `QByteArray` is a list of byte values (naturals below 256).
* The Qt library calls the source makes (`trimmed`, `split`, `startsWith`,
  `mid`, `remove`, `toInt`, `toUInt`, `toUtf8`) are embedded after Qt's
  documented behaviour, in the namespaces `QChar` and `QString`.
* `sendFrame` is embedded as a function from the contents of the form and the
  behaviour of the pcap primitives to the list of observable events (log
  lines and pcap calls) in the order the source performs them.
* `refreshAdapters` is embedded as a function from the answer of
  `pcap_findalldevs` and the items of the combo box to the items it leaves and
  the line it logs.
-/

namespace QtEthernet

/-- A string of the form: a list of characters. -/
abbrev QString := List Char

/-- A byte array: a list of byte values. -/
abbrev QByteArray := List Nat

/-! ## The Qt library functions used by the source -/

/-- The predicate `QChar::isSpace`: the ASCII white space U+0009..U+000D and U+0020,
U+0085, U+00A0 and the Unicode separators (categories Zs, Zl, Zp). -/
def QChar.isSpace (c : Char) : Bool :=
  let n := c.toNat
  n == 0x20 || (0x09 ≤ n && n ≤ 0x0D) || n == 0x85 || n == 0xA0 || n == 0x1680 ||
    (0x2000 ≤ n && n ≤ 0x200A) || n == 0x2028 || n == 0x2029 || n == 0x202F ||
    n == 0x205F || n == 0x3000

/-- The value of a base-16 digit, `none` for any other character. -/
def QChar.hexDigit (c : Char) : Option Nat :=
  let n := c.toNat
  if 0x30 ≤ n ∧ n ≤ 0x39 then some (n - 0x30)
  else if 0x41 ≤ n ∧ n ≤ 0x46 then some (n - 0x41 + 10)
  else if 0x61 ≤ n ∧ n ≤ 0x66 then some (n - 0x61 + 10)
  else none

/-- The function `QString::trimmed`: white space (`QChar::isSpace`) removed from the start
and from the end. -/
def QString.trimmed (s : QString) : QString :=
  (s.dropWhile QChar.isSpace).rdropWhile QChar.isSpace

/-- The function `QString::split(sep)` with the default `Qt::KeepEmptyParts`: the fields
between the separators, empty ones included; the empty string gives one empty
field. -/
def QString.split (sep : Char) : QString → List QString
  | [] => [[]]
  | c :: cs =>
    if c = sep then [] :: QString.split sep cs
    else
      match QString.split sep cs with
      | [] => [[c]]
      | p :: ps => (c :: p) :: ps

/-- The test `QString::startsWith("0x", Qt::CaseInsensitive)`. -/
def QString.startsWith0x : QString → Bool
  | c :: d :: _ => c == '0' && (d == 'x' || d == 'X')
  | _ => false

/-- The function `QString::mid(pos)`: the string from position `pos` on. -/
def QString.mid (s : QString) (pos : Nat) : QString := s.drop pos

/-- The function `QString::remove(ch)`: every occurrence of `ch` removed. -/
def QString.remove (s : QString) (ch : Char) : QString := s.filter (fun c => c != ch)

/-- The digit loop of the integer conversion: every character must be a base-16
digit; the digits accumulate most significant first. -/
def QString.hexLoop : Nat → QString → Option Nat
  | acc, [] => some acc
  | acc, c :: cs =>
    match QChar.hexDigit c with
    | some d => QString.hexLoop (acc * 16 + d) cs
    | none => none

/-- At least one base-16 digit and nothing else. -/
def QString.hexDigits (s : QString) : Option Nat :=
  match s with
  | [] => none
  | _ :: _ => QString.hexLoop 0 s

/-- Whether a character is read as a minus sign by the integer conversions: `-`, or the
minus sign U+2212. -/
def QChar.isMinus (c : Char) : Bool := c == '-' || c.toNat == 0x2212

/-- The unsigned part of a base-16 number as the conversion accepts it: an optional
`0x` or `0X` followed by at least one base-16 digit. -/
def QString.hexMagnitude (s : QString) : Option Nat :=
  if QString.startsWith0x s then QString.hexDigits (s.drop 2) else QString.hexDigits s

/-- The sign and magnitude read by the integer conversions from a text without
surrounding white space: `(negative, magnitude)`. -/
def QString.signedMagnitude : QString → Option (Bool × Nat)
  | [] => none
  | c :: r =>
    if QChar.isMinus c then (QString.hexMagnitude r).map (fun n => (true, n))
    else if c == '+' then (QString.hexMagnitude r).map (fun n => (false, n))
    else (QString.hexMagnitude (c :: r)).map (fun n => (false, n))

/-- The function `QString::toInt(&ok, 16)`: leading and trailing white space is ignored; an
optional sign (`+`, `-`, or the minus sign U+2212), an optional `0x`, then
base-16 digits up to the end; the value must fit a 32-bit signed `int`.
`none` stands for `ok = false`. -/
def QString.toInt16 (s : QString) : Option Int :=
  match QString.signedMagnitude (QString.trimmed s) with
  | none => none
  | some (neg, n) =>
    let v : Int := if neg then - (n : Int) else (n : Int)
    if -2147483648 ≤ v ∧ v ≤ 2147483647 then some v else none

/-- The function `QString::toUInt(&ok, 16)`: as `toInt`, but a minus sign is refused and the
value must fit a 32-bit `uint`.  `none` stands for `ok = false`. -/
def QString.toUInt16 (s : QString) : Option Nat :=
  match QString.signedMagnitude (QString.trimmed s) with
  | none => none
  | some (neg, n) => if neg then none else if n ≤ 4294967295 then some n else none

/-- The function `QString::toUtf8`: the UTF-8 encoding of the text. -/
def QString.toUtf8 (s : QString) : QByteArray :=
  s.flatMap (fun c => (String.utf8EncodeChar c).map UInt8.toNat)

/-- The conversion `char(v)` of an `int` stored in a byte array: the low eight bits. -/
def toChar (v : Int) : Nat := (v % 256).toNat

/-! ## The parsers of `mainwindow.cpp` -/

/-- The `for` loop of `parseMac` (lines 27-32): each part is converted with
`toInt(&k, 16)`; the first part that does not convert, or whose value is
outside `0..255`, ends the function with `ok = false` and an empty result. -/
def parseMacLoop : List QString → QByteArray → QByteArray × Bool
  | [], out => (out, true)
  | p :: ps, out =>
    match QString.toInt16 p with
    | none => ([], false)
    | some v =>
      if v < 0 ∨ v > 255 then ([], false)
      else parseMacLoop ps (out ++ [toChar v])

/-- The function `parseMac(s, &ok)` (lines 19-35): the returned byte array and the flag
written to `*ok`. -/
def parseMac (s : QString) : QByteArray × Bool :=
  let parts := QString.split ':' (QString.trimmed s)
  if parts.length ≠ 6 then ([], false)
  else parseMacLoop parts []

/-- The function `parseEtherType(s, out)` (lines 37-52): `none` when it returns `false`
(and leaves `*out` alone), `some v` when it returns `true` having stored
`(quint16)v`. -/
def parseEtherType (s : QString) : Option Nat :=
  let s := QString.trimmed s
  let s := if QString.startsWith0x s then QString.mid s 2 else s
  match QString.toUInt16 s with
  | none => none
  | some v => if v > 0xFFFF then none else some (v % 65536)

/-- The `for` loop of `parseHexPayload` (lines 63-68) on the text from position `i`
on: two characters at a time, `[a, b]` being `mid(i, 2)`, through `toInt(&k, 16)`. -/
def parseHexPayloadLoop : QString → QByteArray → QByteArray × Bool
  | [], out => (out, true)
  | [a], out =>
    match QString.toInt16 [a] with
    | none => ([], false)
    | some v => (out ++ [toChar v], true)
  | a :: b :: rest, out =>
    match QString.toInt16 [a, b] with
    | none => ([], false)
    | some v => parseHexPayloadLoop rest (out ++ [toChar v])

/-- The function `parseHexPayload(s, &ok)` (lines 58-71): the returned byte array and the
flag written to `*ok`. -/
def parseHexPayload (s : QString) : QByteArray × Bool :=
  let s := QString.trimmed s
  let s := (((s.remove ' ').remove '\n').remove '\r').remove '\t'
  if s.length % 2 ≠ 0 then ([], false)
  else parseHexPayloadLoop s []

/-! ## `MainWindow::sendFrame` -/

/-- What `sendFrame` reads from the form: the data of the selected adapter, the
four text fields and the state of the hex check box. -/
structure Form where
  comboAdapter : QString
  editDstMac : QString
  editSrcMac : QString
  editEtherType : QString
  editPayload : QString
  checkHex : Bool

/-- The pcap primitives `sendFrame` calls, as the environment answers them:
`pcap_open_live` gives a handle or fills the error buffer, `pcap_sendpacket`
gives a return code, `pcap_geterr` the handle's error text. -/
structure Pcap where
  open_live : QByteArray → Except QString Nat
  sendpacket : Nat → QByteArray → Int
  geterr : Nat → QString

/-- What `sendFrame` does that can be observed from outside: a line appended to
the log, or a call of a pcap primitive with its arguments. -/
inductive Event where
  | log (line : QString)
  | pcap_open_live (device : QByteArray) (snaplen promisc to_ms : Nat)
  | pcap_sendpacket (handle : Nat) (buf : QByteArray) (size : Nat)
  | pcap_geterr (handle : Nat)
  | pcap_close (handle : Nat)
  deriving DecidableEq, Repr

/-- Lines 165-172 of `sendFrame`: the payload bytes read from the form, `none`
when the hex text is refused (`okP = false`). -/
def readPayload (ui : Form) : Option QByteArray :=
  if ui.checkHex then
    let r := parseHexPayload ui.editPayload
    if r.2 then some r.1 else none
  else some (QString.toUtf8 ui.editPayload)

/-- Lines 174-185 of `sendFrame`: the payload is padded with zero bytes up to 46,
refused when longer than 1500 (`none`), and the frame is the destination, the
source, the two EtherType bytes and the payload appended in this order. -/
def buildFrame (dst src : QByteArray) (etherType : Nat) (payload : QByteArray) :
    Option QByteArray :=
  let payload :=
    if payload.length < 46 then payload ++ List.replicate (46 - payload.length) 0
    else payload
  if payload.length > 1500 then none
  else
    some (dst ++ src ++ [(etherType >>> 8) &&& 0xFF] ++ [etherType &&& 0xFF] ++ payload)

/-- The text `QString::number(n)`: `n` in decimal. -/
def QString.number (n : Nat) : QString := Nat.toDigits 10 n

/-- The text `QString::number(n, 16).toUpper()`: `n` in base 16, upper case. -/
def QString.numberHexUpper (n : Nat) : QString := (Nat.toDigits 16 n).map Char.toUpper

/-- The log line of a rejected payload size (line 176). -/
def msgPayloadTooLarge : QString := "Payload > 1500 not allowed.".toList

/-- The function `MainWindow::sendFrame` (lines 141-208): the events it causes, in order. -/
def sendFrame (pcap : Pcap) (ui : Form) : List Event :=
  let devName := ui.comboAdapter
  if devName.isEmpty then [Event.log "No adapter selected.".toList]
  else
    let dst := parseMac ui.editDstMac
    let src := parseMac ui.editSrcMac
    if !dst.2 then [Event.log "Invalid Dst MAC.".toList]
    else if !src.2 then [Event.log "Invalid Src MAC.".toList]
    else
      match parseEtherType ui.editEtherType with
      | none => [Event.log "Invalid EtherType.".toList]
      | some etherType =>
        match readPayload ui with
        | none => [Event.log "Invalid HEX payload.".toList]
        | some payload =>
          match buildFrame dst.1 src.1 etherType payload with
          | none => [Event.log msgPayloadTooLarge]
          | some frame =>
            let device := (QString.toUtf8 devName).takeWhile (fun b => b != 0)
            Event.pcap_open_live device 65536 1 1000 ::
              match pcap.open_live device with
              | Except.error errbuf =>
                [Event.log ("pcap_open_live failed: ".toList ++ errbuf)]
              | Except.ok handle =>
                Event.pcap_sendpacket handle frame frame.length ::
                  ((if pcap.sendpacket handle frame ≠ 0 then
                      [Event.pcap_geterr handle,
                        Event.log ("pcap_sendpacket failed: ".toList ++ pcap.geterr handle)]
                    else
                      [Event.log ("Sent OK. Bytes=".toList ++ QString.number frame.length ++
                        " EtherType=0x".toList ++ QString.numberHexUpper etherType)]) ++
                    [Event.pcap_close handle])

/-! ## `MainWindow::refreshAdapters` -/

/-- One entry of the list `pcap_findalldevs` returns (a `pcap_if_t`): its name
and its description, each a C string or a null pointer (`none`). -/
structure PcapIf where
  name : Option QString
  description : Option QString

/-- What `pcap_findalldevs` answers: its return code (0, or -1 on failure), the
list it leaves in `alldevs` and the text it leaves in `errbuf`. -/
structure FindAllDevs where
  rc : Int
  alldevs : List PcapIf
  errbuf : QString

/-- An item of the adapter combo box: the text shown and the data attached. -/
structure ComboItem where
  text : QString
  data : QString
  deriving DecidableEq, Repr

/-- The function `QComboBox::clear`: all items removed. -/
def QComboBox.clear (_items : List ComboItem) : List ComboItem := []

/-- Line 123 of `refreshAdapters`: `d->name ? d->name : ""`. -/
def adapterName (d : PcapIf) : QString :=
  match d.name with
  | some n => n
  | none => []

/-- Line 124 of `refreshAdapters`: `d->description ? d->description : "No description"`. -/
def adapterDesc (d : PcapIf) : QString :=
  match d.description with
  | some t => t
  | none => "No description".toList

/-- Line 127 of `refreshAdapters`: the item `addItem(desc + "  [" + name + "]", name)`
adds for an entry. -/
def adapterItem (d : PcapIf) : ComboItem :=
  ⟨adapterDesc d ++ "  [".toList ++ adapterName d ++ "]".toList, adapterName d⟩

/-- The `for` loop of `refreshAdapters` (lines 122-129): one `addItem` and one
`count++` for each entry, following `d->next`. -/
def refreshAdaptersLoop : List PcapIf → List ComboItem → Nat → List ComboItem × Nat
  | [], items, count => (items, count)
  | d :: next, items, count =>
    refreshAdaptersLoop next (items ++ [adapterItem d]) (count + 1)

/-- The function `MainWindow::refreshAdapters` (lines 109-133), given what
`pcap_findalldevs` answers and the items the combo box holds: the items it
holds afterwards and the events caused. -/
def refreshAdapters (found : FindAllDevs) (comboAdapter : List ComboItem) :
    List ComboItem × List Event :=
  let cleared := QComboBox.clear comboAdapter
  if found.rc = -1 then
    (cleared, [Event.log ("pcap_findalldevs failed: ".toList ++ found.errbuf)])
  else
    let r := refreshAdaptersLoop found.alldevs cleared 0
    (r.1, [Event.log ("Adapters refreshed. Found: ".toList ++ QString.number r.2)])

/-! ## The vocabulary of the specification -/

/-- Whether an event is a call of the open primitive. -/
def Event.isOpen : Event → Bool
  | Event.pcap_open_live _ _ _ _ => true
  | _ => false

/-- Whether an event is a call of the send primitive. -/
def Event.isSend : Event → Bool
  | Event.pcap_sendpacket _ _ _ => true
  | _ => false

/-- Whether an event is a call of the close primitive. -/
def Event.isClose : Event → Bool
  | Event.pcap_close _ => true
  | _ => false

/-- Whether an event is a line appended to the log. -/
def Event.isLog : Event → Bool
  | Event.log _ => true
  | _ => false

/-- A nonempty text made of base-16 digits only. -/
def QString.isHex (h : QString) : Bool :=
  !h.isEmpty && h.all (fun c => (QChar.hexDigit c).isSome)

/-- A text made of white space only (possibly empty). -/
def QString.isSpaces (w : QString) : Bool := w.all QChar.isSpace

/-- The base-16 value of a text of digits, most significant digit first. -/
def hexValue (h : QString) : Nat :=
  h.foldl (fun acc c => acc * 16 + (QChar.hexDigit c).getD 0) 0

/-- The characters an integer conversion in base 16 can accept at all: base-16
digits, the letter of the `0x` prefix, the signs and white space. -/
def QChar.isNumberChar (c : Char) : Bool :=
  (QChar.hexDigit c).isSome || c == 'x' || c == 'X' || QChar.isMinus c || c == '+' ||
    QChar.isSpace c

/-- Whether the second text is the first with the case of some letters changed:
same length, and each character is the lower-case or the upper-case form of
the character at its place. -/
def QString.isCaseVariant : QString → QString → Bool
  | [], [] => true
  | c :: h, c' :: h' => (c' == c.toLower || c' == c.toUpper) && QString.isCaseVariant h h'
  | _, _ => false

/-- The text after stripping one leading `0x` in either case, as the
specification words the step of `parseEtherType`. -/
def stripRadixMarker : QString → QString
  | '0' :: 'x' :: r => r
  | '0' :: 'X' :: r => r
  | s => s

/-- The four characters `parseHexPayload` removes anywhere in the text: space,
tab, carriage return and line feed. -/
def QChar.isPayloadSpace (c : Char) : Bool := c == ' ' || c == '\t' || c == '\r' || c == '\n'

/-- The bytes a text of base-16 digit pairs stands for: the value of each pair,
in order. -/
def hexPairs : QString → QByteArray
  | a :: b :: rest => hexValue [a, b] :: hexPairs rest
  | _ => []

/-- The upper-case base-16 digit of a value below 16. -/
def hexDigitUpper (d : Nat) : Char :=
  if d < 10 then Char.ofNat (48 + d) else Char.ofNat (55 + d)

/-- A byte as two upper-case base-16 digits, zero-padded. -/
def formatByte (v : Nat) : QString := [hexDigitUpper (v / 16), hexDigitUpper (v % 16)]

/-- The colon-hex text of an address as the round-trip property of the
specification words it: one upper-case, zero-padded two-digit group per byte,
joined by colons.  The source has no formatter; this definition follows the
specification and is only used to state the round trip through `parseMac`. -/
def formatMac (b : QByteArray) : QString := [':'].intercalate (b.map formatByte)

/-- The frame as the specification writes it: destination, source, the EtherType
as quotient and remainder by 256, the payload, then `46 - length payload` zero
bytes.  It follows the words of the specification and is compared with
`buildFrame`, which follows the source. -/
def ethernetFrame (dst src : QByteArray) (e : Nat) (p : QByteArray) : QByteArray :=
  dst ++ src ++ [e / 256, e % 256] ++ p ++ List.replicate (46 - p.length) 0

/-! ## Frame construction (claims C1 to C3) -/

/-- The two EtherType bytes of a 16-bit value are its quotient and remainder by 256. -/
theorem etherType_bytes (e : Nat) (he : e < 65536) :
    (e >>> 8) &&& 0xFF = e / 256 ∧ e &&& 0xFF = e % 256 := by
  have h1 : ∀ x : Nat, x &&& 0xFF = x % 256 := fun x =>
    Nat.and_pow_two_sub_one_eq_mod x 8
  rw [h1, h1, Nat.shiftRight_eq_div_pow]
  refine ⟨?_, rfl⟩
  have : e / 2 ^ 8 < 256 := by
    have : (2 : Nat) ^ 8 = 256 := by norm_num
    omega
  exact Nat.mod_eq_of_lt this

/-- The loop of `parseMac` either fails with an empty result or appends one byte
below 256 for each part. -/
theorem parseMacLoop_spec (ps : List QString) (out : QByteArray) :
    ((parseMacLoop ps out).2 = false ∧ (parseMacLoop ps out).1 = []) ∨
      ((parseMacLoop ps out).2 = true ∧
        ∃ bs : QByteArray, (parseMacLoop ps out).1 = out ++ bs ∧ bs.length = ps.length ∧
          ∀ b ∈ bs, b < 256) := by
  induction ps generalizing out with
  | nil => exact Or.inr ⟨rfl, [], by simp [parseMacLoop], rfl, by simp⟩
  | cons p ps ih =>
    unfold parseMacLoop
    cases hp : QString.toInt16 p with
    | none => exact Or.inl ⟨rfl, rfl⟩
    | some v =>
      dsimp only
      by_cases hv : v < 0 ∨ v > 255
      · rw [if_pos hv]
        exact Or.inl ⟨rfl, rfl⟩
      · rw [if_neg hv]
        rcases ih (out ++ [toChar v]) with h | ⟨h1, bs, h2, h3, h4⟩
        · exact Or.inl h
        · refine Or.inr ⟨h1, toChar v :: bs, by simp [h2], by simp [h3], ?_⟩
          intro b hb
          rcases List.mem_cons.1 hb with rfl | hb
          · unfold toChar
            omega
          · exact h4 b hb

/-- A failing `parseMac` returns the empty array; a successful one returns six
bytes, each below 256. -/
theorem parseMac_shape (s : QString) :
    ((parseMac s).2 = false ∧ (parseMac s).1 = []) ∨
      ((parseMac s).2 = true ∧ (parseMac s).1.length = 6 ∧ ∀ b ∈ (parseMac s).1, b < 256) := by
  unfold parseMac
  by_cases h : (QString.split ':' (QString.trimmed s)).length ≠ 6
  · rw [if_pos h]
    exact Or.inl ⟨rfl, rfl⟩
  · rw [if_neg h]
    rcases parseMacLoop_spec (QString.split ':' (QString.trimmed s)) [] with h' | ⟨h1, bs, h2, h3, h4⟩
    · exact Or.inl h'
    · refine Or.inr ⟨h1, ?_, ?_⟩
      · rw [h2]
        simp only [List.nil_append, h3]
        exact not_not.1 h
      · rw [h2]
        simpa using h4

/-- A successfully parsed MAC address has six bytes. -/
theorem parseMac_length (t : QString) (b : QByteArray) (h : parseMac t = (b, true)) :
    b.length = 6 := by
  rcases parseMac_shape t with h' | h'
  · rw [h] at h'
    exact absurd h'.1 (by simp)
  · rw [h] at h'
    exact h'.2.1

/-- The frame-building step written out: failure above 1500 bytes, otherwise the
header followed by the payload and its zero padding. -/
theorem buildFrame_eq (dst src : QByteArray) (e : Nat) (p : QByteArray) :
    buildFrame dst src e p =
      if 1500 < p.length then none
      else some (dst ++ src ++ [(e >>> 8) &&& 0xFF] ++ [e &&& 0xFF] ++ p ++
        List.replicate (46 - p.length) 0) := by
  unfold buildFrame
  by_cases h46 : p.length < 46
  · have h1 : ¬ 1500 < p.length := by omega
    have h2 : ¬ (p ++ List.replicate (46 - p.length) 0).length > 1500 := by
      simp only [List.length_append, List.length_replicate]
      omega
    simp only [h46, if_true, h1, if_false, h2, List.append_assoc]
  · have h0 : 46 - p.length = 0 := by omega
    simp only [h46, if_false, h0, List.replicate_zero, List.append_nil, gt_iff_lt]

/-- C1: for successfully parsed 6-byte MAC addresses `dst` and `src`, a 16-bit
EtherType `e` and a payload `p` of at most 1500 bytes, the frame `sendFrame`
builds is `dst ++ src ++ [e / 256, e % 256] ++ p` followed by `46 - length p`
zero bytes: the addresses fill offsets 0-11, the EtherType is big-endian in
exactly two bytes at offsets 12-13, the payload is unchanged at offset 14 and
the padding after it is all zero. -/
theorem buildFrame_layout (tDst tSrc : QString) (dst src : QByteArray) (e : Nat)
    (p : QByteArray) (hd : parseMac tDst = (dst, true)) (hs : parseMac tSrc = (src, true))
    (he : e < 65536) (hp : p.length ≤ 1500) :
    buildFrame dst src e p = some (ethernetFrame dst src e p) ∧
      (ethernetFrame dst src e p).take 6 = dst ∧
      ((ethernetFrame dst src e p).drop 6).take 6 = src ∧
      ((ethernetFrame dst src e p).drop 12).take 2 = [e / 256, e % 256] ∧
      e / 256 < 256 ∧ e % 256 < 256 ∧
      ((ethernetFrame dst src e p).drop 14).take p.length = p ∧
      (ethernetFrame dst src e p).drop (14 + p.length) = List.replicate (46 - p.length) 0 := by
  have hdl := parseMac_length tDst dst hd
  have hsl := parseMac_length tSrc src hs
  obtain ⟨hb1, hb2⟩ := etherType_bytes e he
  refine ⟨?_, ?_, ?_, ?_, by omega, by omega, ?_, ?_⟩
  · rw [buildFrame_eq, if_neg (by omega), hb1, hb2]
    simp [ethernetFrame]
  · unfold ethernetFrame
    simp only [List.append_assoc]
    exact List.take_left' hdl
  · unfold ethernetFrame
    simp only [List.append_assoc]
    rw [List.drop_left' hdl]
    exact List.take_left' hsl
  · have h12 : (dst ++ src).length = 12 := by simp [hdl, hsl]
    unfold ethernetFrame
    simp only [List.append_assoc]
    rw [← List.append_assoc dst src, List.drop_left' h12]
    rfl
  · have h14 : (dst ++ src ++ [e / 256, e % 256]).length = 14 := by simp [hdl, hsl]
    unfold ethernetFrame
    rw [List.append_assoc (dst ++ src ++ [e / 256, e % 256]), List.drop_left' h14]
    exact List.take_left' rfl
  · have h14 : (dst ++ src ++ [e / 256, e % 256] ++ p).length = 14 + p.length := by
      simp [hdl, hsl]
      omega
    unfold ethernetFrame
    exact List.drop_left' h14

/-- C1 at the addresses AA:BB:CC:DD:EE:FF and 11:22:33:44:55:66, EtherType 0x88B5
and the payload DE AD. -/
theorem buildFrame_layout_witness :
    buildFrame [170, 187, 204, 221, 238, 255] [17, 34, 51, 68, 85, 102] 0x88B5 [222, 173] =
        some (ethernetFrame [170, 187, 204, 221, 238, 255] [17, 34, 51, 68, 85, 102] 0x88B5
          [222, 173]) ∧
      ((ethernetFrame [170, 187, 204, 221, 238, 255] [17, 34, 51, 68, 85, 102] 0x88B5
          [222, 173]).drop 12).take 2 = [0x88, 0xB5] :=
  have h := buildFrame_layout "AA:BB:CC:DD:EE:FF".toList "11:22:33:44:55:66".toList
    [170, 187, 204, 221, 238, 255] [17, 34, 51, 68, 85, 102] 0x88B5 [222, 173]
    (by decide) (by decide) (by decide) (by decide)
  ⟨h.1, h.2.2.2.1⟩

/-- C2: with successfully parsed MAC addresses, every frame the frame-building
step produces has length `14 + max 46 (length payload)`, which lies between 60
and 1514; a payload shorter than 46 bytes always gives a frame, of exactly 60
bytes. -/
theorem buildFrame_length (tDst tSrc : QString) (dst src : QByteArray) (e : Nat)
    (p : QByteArray) (hd : parseMac tDst = (dst, true)) (hs : parseMac tSrc = (src, true)) :
    (∀ f, buildFrame dst src e p = some f →
        f.length = 14 + max 46 p.length ∧ 60 ≤ f.length ∧ f.length ≤ 1514) ∧
      (p.length < 46 → ∃ f, buildFrame dst src e p = some f ∧ f.length = 60) := by
  have hdl := parseMac_length tDst dst hd
  have hsl := parseMac_length tSrc src hs
  rw [buildFrame_eq]
  constructor
  · intro f hf
    by_cases h : 1500 < p.length
    · rw [if_pos h] at hf
      exact absurd hf (by simp)
    · rw [if_neg h] at hf
      have hf' := (Option.some.inj hf).symm
      have hlen : f.length = 14 + (p.length + (46 - p.length)) := by
        rw [hf']
        simp only [List.length_append, List.length_replicate, List.length_singleton, hdl, hsl]
        omega
      omega
  · intro h
    refine ⟨_, if_neg (by omega), ?_⟩
    simp only [List.length_append, List.length_replicate, List.length_singleton, hdl, hsl]
    omega

/-- C2 at a 10-byte payload: the frame has 60 bytes. -/
theorem buildFrame_length_witness :
    (∀ f, buildFrame [170, 187, 204, 221, 238, 255] [17, 34, 51, 68, 85, 102] 0x88B5
          [1, 2, 3, 4, 5, 6, 7, 8, 9, 10] = some f →
        f.length = 14 + max 46 10 ∧ 60 ≤ f.length ∧ f.length ≤ 1514) ∧
      (10 < 46 → ∃ f, buildFrame [170, 187, 204, 221, 238, 255] [17, 34, 51, 68, 85, 102]
          0x88B5 [1, 2, 3, 4, 5, 6, 7, 8, 9, 10] = some f ∧ f.length = 60) :=
  buildFrame_length "AA:BB:CC:DD:EE:FF".toList "11:22:33:44:55:66".toList
    [170, 187, 204, 221, 238, 255] [17, 34, 51, 68, 85, 102] 0x88B5
    [1, 2, 3, 4, 5, 6, 7, 8, 9, 10] (by decide) (by decide)

/-- With an adapter selected and every field accepted, `sendFrame` logs the size
error when the frame-building step fails and otherwise starts by opening the
adapter. -/
theorem sendFrame_of_fields (pcap : Pcap) (ui : Form) (dst src : QByteArray) (e : Nat)
    (p : QByteArray) (ha : ui.comboAdapter ≠ [])
    (hd : parseMac ui.editDstMac = (dst, true)) (hs : parseMac ui.editSrcMac = (src, true))
    (he : parseEtherType ui.editEtherType = some e) (hp : readPayload ui = some p) :
    sendFrame pcap ui =
      match buildFrame dst src e p with
      | none => [Event.log msgPayloadTooLarge]
      | some frame =>
        Event.pcap_open_live ((QString.toUtf8 ui.comboAdapter).takeWhile (fun b => b != 0))
            65536 1 1000 ::
          match pcap.open_live ((QString.toUtf8 ui.comboAdapter).takeWhile (fun b => b != 0)) with
          | Except.error errbuf => [Event.log ("pcap_open_live failed: ".toList ++ errbuf)]
          | Except.ok handle =>
            Event.pcap_sendpacket handle frame frame.length ::
              ((if pcap.sendpacket handle frame ≠ 0 then
                  [Event.pcap_geterr handle,
                    Event.log ("pcap_sendpacket failed: ".toList ++ pcap.geterr handle)]
                else
                  [Event.log ("Sent OK. Bytes=".toList ++ QString.number frame.length ++
                    " EtherType=0x".toList ++ QString.numberHexUpper e)]) ++
                [Event.pcap_close handle]) := by
  have hne : ui.comboAdapter.isEmpty = false := by
    cases h : ui.comboAdapter with
    | nil => exact absurd h ha
    | cons _ _ => rfl
  unfold sendFrame
  simp only [hne, hd, hs, he, hp, Bool.not_true, Bool.false_eq_true, if_false]

/-- The size error is none of the other lines `sendFrame` logs once a frame is
built. -/
theorem msgPayloadTooLarge_ne (t : QString) :
    "pcap_open_live failed: ".toList ++ t ≠ msgPayloadTooLarge ∧
      "pcap_sendpacket failed: ".toList ++ t ≠ msgPayloadTooLarge ∧
      "Sent OK. Bytes=".toList ++ t ≠ msgPayloadTooLarge := by
  have h1 : "pcap_open_live failed: ".toList = 'p' :: "cap_open_live failed: ".toList := rfl
  have h2 : "pcap_sendpacket failed: ".toList = 'p' :: "cap_sendpacket failed: ".toList := rfl
  have h3 : "Sent OK. Bytes=".toList = 'S' :: "ent OK. Bytes=".toList := rfl
  have h4 : msgPayloadTooLarge = 'P' :: "ayload > 1500 not allowed.".toList := rfl
  rw [h1, h2, h3, h4]
  refine ⟨?_, ?_, ?_⟩ <;>
  · intro h
    have := (List.cons.inj h).1
    revert this
    decide

/-- C3: with an adapter selected and every field accepted, the frame-building
step fails exactly when the unpadded payload has more than 1500 bytes, and
`sendFrame` logs the size error exactly then; on rejection that line is the
only event (no frame is built, no pcap primitive is called), while a payload
of at most 1500 bytes gives a frame that keeps all of it and `sendFrame` goes
on to open the adapter; 1500 bytes give a 1514-byte frame and 1501 bytes are
rejected. -/
theorem payloadTooLarge_iff (pcap : Pcap) (ui : Form) (dst src : QByteArray) (e : Nat)
    (p : QByteArray) (ha : ui.comboAdapter ≠ [])
    (hd : parseMac ui.editDstMac = (dst, true)) (hs : parseMac ui.editSrcMac = (src, true))
    (he : parseEtherType ui.editEtherType = some e) (hp : readPayload ui = some p) :
    (buildFrame dst src e p = none ↔ 1500 < p.length) ∧
      (Event.log msgPayloadTooLarge ∈ sendFrame pcap ui ↔ 1500 < p.length) ∧
      (1500 < p.length → sendFrame pcap ui = [Event.log msgPayloadTooLarge]) ∧
      (p.length ≤ 1500 → ∃ f, buildFrame dst src e p = some f ∧
        (f.drop 14).take p.length = p ∧
        (sendFrame pcap ui).head? = some (Event.pcap_open_live
          ((QString.toUtf8 ui.comboAdapter).takeWhile (fun b => b != 0)) 65536 1 1000)) ∧
      (p.length = 1500 → ∃ f, buildFrame dst src e p = some f ∧ f.length = 1514) ∧
      (p.length = 1501 → buildFrame dst src e p = none) := by
  have hdl := parseMac_length _ dst hd
  have hsl := parseMac_length _ src hs
  have hsend := sendFrame_of_fields pcap ui dst src e p ha hd hs he hp
  have hiff : buildFrame dst src e p = none ↔ 1500 < p.length := by
    rw [buildFrame_eq]
    by_cases h : 1500 < p.length
    · simp [h]
    · simp [h]
  have hrej : 1500 < p.length → sendFrame pcap ui = [Event.log msgPayloadTooLarge] := by
    intro h
    rw [hsend, hiff.2 h]
  have hacc : p.length ≤ 1500 → ∃ f, buildFrame dst src e p = some f ∧
      f = dst ++ src ++ [(e >>> 8) &&& 0xFF] ++ [e &&& 0xFF] ++ p ++
        List.replicate (46 - p.length) 0 := by
    intro h
    exact ⟨_, by rw [buildFrame_eq, if_neg (by omega)], rfl⟩
  refine ⟨hiff, ⟨?_, fun h => by rw [hrej h]; exact List.mem_singleton.2 rfl⟩, hrej, ?_, ?_,
    fun h => hiff.2 (by omega)⟩
  · intro hmem
    by_contra hle
    obtain ⟨f, hf, -⟩ := hacc (by omega)
    rw [hsend, hf] at hmem
    dsimp only at hmem
    cases hopen : pcap.open_live ((QString.toUtf8 ui.comboAdapter).takeWhile (fun b => b != 0)) with
    | error errbuf =>
      rw [hopen] at hmem
      simp only [List.mem_cons, List.mem_singleton, Event.log.injEq, reduceCtorEq, false_or,
        List.not_mem_nil, or_false] at hmem
      exact (msgPayloadTooLarge_ne errbuf).1 hmem.symm
    | ok handle =>
      rw [hopen] at hmem
      dsimp only at hmem
      by_cases hrc : pcap.sendpacket handle f ≠ 0
      · rw [if_pos hrc] at hmem
        simp only [List.mem_cons, List.mem_append, List.mem_singleton, Event.log.injEq,
          reduceCtorEq, false_or, List.not_mem_nil, or_false] at hmem
        exact (msgPayloadTooLarge_ne _).2.1 hmem.symm
      · rw [if_neg hrc] at hmem
        simp only [List.mem_cons, List.mem_append, List.mem_singleton, Event.log.injEq,
          reduceCtorEq, false_or, List.not_mem_nil, or_false, List.append_assoc] at hmem
        exact (msgPayloadTooLarge_ne _).2.2 hmem.symm
  · intro h
    obtain ⟨f, hf, hfeq⟩ := hacc h
    refine ⟨f, hf, ?_, ?_⟩
    · have h14 : (dst ++ src ++ [(e >>> 8) &&& 0xFF] ++ [e &&& 0xFF]).length = 14 := by
        simp [hdl, hsl]
      rw [hfeq, List.append_assoc (dst ++ src ++ [(e >>> 8) &&& 0xFF] ++ [e &&& 0xFF]),
        List.drop_left' h14]
      exact List.take_left' rfl
    · rw [hsend, hf]
      rfl
  · intro h
    obtain ⟨f, hf, hfeq⟩ := hacc (by omega)
    refine ⟨f, hf, ?_⟩
    rw [hfeq]
    simp only [List.length_append, List.length_replicate, List.length_singleton, hdl, hsl]
    omega

/-- The UTF-8 bytes of a run of the letter `a`. -/
theorem toUtf8_replicate_a (n : Nat) :
    QString.toUtf8 (List.replicate n 'a') = List.replicate n 97 := by
  induction n with
  | zero => rfl
  | succ n ih =>
    have h : QString.toUtf8 ('a' :: List.replicate n 'a') =
        97 :: QString.toUtf8 (List.replicate n 'a') := rfl
    rw [List.replicate_succ, List.replicate_succ, h, ih]

/-- C3 at a text payload of 1501 bytes: the size error is the only event. -/
theorem payloadTooLarge_iff_witness :
    1500 < (List.replicate 1501 97).length ∧
      sendFrame ⟨fun _ => Except.ok 0, fun _ _ => 0, fun _ => []⟩
          ⟨"eth0".toList, "AA:BB:CC:DD:EE:FF".toList, "11:22:33:44:55:66".toList,
            "0x88B5".toList, List.replicate 1501 'a', false⟩ =
        [Event.log msgPayloadTooLarge] :=
  ⟨by rw [List.length_replicate]; decide,
    (payloadTooLarge_iff ⟨fun _ => Except.ok 0, fun _ _ => 0, fun _ => []⟩
      ⟨"eth0".toList, "AA:BB:CC:DD:EE:FF".toList, "11:22:33:44:55:66".toList,
        "0x88B5".toList, List.replicate 1501 'a', false⟩
      [170, 187, 204, 221, 238, 255] [17, 34, 51, 68, 85, 102] 0x88B5 (List.replicate 1501 97)
      (by decide) (by decide) (by decide) (by decide)
      (congrArg some (toUtf8_replicate_a 1501))).2.2.1
      (by rw [List.length_replicate]; decide)⟩

/-! ## White space and trimming -/

/-- Leading white space does not survive `dropWhile`. -/
theorem dropWhile_spaces_append (w r : QString) (hw : QString.isSpaces w = true) :
    (w ++ r).dropWhile QChar.isSpace = r.dropWhile QChar.isSpace := by
  induction w with
  | nil => rfl
  | cons c w ih =>
    unfold QString.isSpaces at hw ih
    rw [List.all_cons, Bool.and_eq_true] at hw
    rw [List.cons_append, List.dropWhile_cons_of_pos hw.1]
    exact ih hw.2

/-- Trailing white space does not survive `rdropWhile`. -/
theorem rdropWhile_append_spaces (r w : QString) (hw : QString.isSpaces w = true) :
    (r ++ w).rdropWhile QChar.isSpace = r.rdropWhile QChar.isSpace := by
  unfold List.rdropWhile
  rw [List.reverse_append, dropWhile_spaces_append _ _
    (by unfold QString.isSpaces at hw ⊢; rwa [List.all_reverse])]

/-- Trimming ignores white space appended to the text. -/
theorem trimmed_append_spaces (b w : QString) (hw : QString.isSpaces w = true) :
    QString.trimmed (b ++ w) = QString.trimmed b := by
  unfold QString.trimmed
  induction b with
  | nil =>
    have h : (w.dropWhile QChar.isSpace) = [] := by
      rw [List.dropWhile_eq_nil_iff]
      exact fun x hx => List.all_eq_true.1 hw x hx
    simp [h]
  | cons c b ih =>
    by_cases hc : QChar.isSpace c = true
    · rw [List.cons_append, List.dropWhile_cons_of_pos hc, List.dropWhile_cons_of_pos hc]
      exact ih
    · rw [List.cons_append, List.dropWhile_cons_of_neg hc, List.dropWhile_cons_of_neg hc,
        ← List.cons_append]
      exact rdropWhile_append_spaces _ _ hw

/-- Trimming ignores white space around the text. -/
theorem trimmed_pad (w1 b w2 : QString) (h1 : QString.isSpaces w1 = true)
    (h2 : QString.isSpaces w2 = true) :
    QString.trimmed (w1 ++ b ++ w2) = QString.trimmed b := by
  rw [trimmed_append_spaces _ _ h2]
  unfold QString.trimmed
  rw [dropWhile_spaces_append _ _ h1]

/-- A text without white space is its own trimmed form. -/
theorem trimmed_eq_self (b : QString) (hb : ∀ c ∈ b, QChar.isSpace c = false) :
    QString.trimmed b = b := by
  unfold QString.trimmed
  have h1 : b.dropWhile QChar.isSpace = b := by
    cases b with
    | nil => rfl
    | cons c b => exact List.dropWhile_cons_of_neg (by simp [hb c (List.mem_cons_self _ _)])
  rw [h1]
  induction b using List.reverseRecOn with
  | nil => rfl
  | append_singleton b c _ =>
    exact List.rdropWhile_concat_neg _ _ _ (by simp [hb c (by simp)])

/-- Trimming is idempotent on the result of trimming around a text without
white space. -/
theorem trimmed_pad_eq (w1 b w2 : QString) (h1 : QString.isSpaces w1 = true)
    (h2 : QString.isSpaces w2 = true) (hb : ∀ c ∈ b, QChar.isSpace c = false) :
    QString.trimmed (w1 ++ b ++ w2) = b := by
  rw [trimmed_pad _ _ _ h1 h2, trimmed_eq_self _ hb]

/-! ## Base-16 digits and the integer conversions -/

/-- A base-16 digit is below 16 and is none of the characters the parsers treat
specially. -/
theorem hexDigit_cases (c : Char) (d : Nat) (h : QChar.hexDigit c = some d) :
    d < 16 ∧ QChar.isSpace c = false ∧ QChar.isMinus c = false ∧ c ≠ '+' ∧ c ≠ ':' ∧
      c ≠ 'x' ∧ c ≠ 'X' ∧ c ≠ ' ' ∧ c ≠ '\n' ∧ c ≠ '\r' ∧ c ≠ '\t' := by
  obtain ⟨n, hn⟩ : ∃ n, c.toNat = n := ⟨_, rfl⟩
  have hc : c = Char.ofNat n := by rw [← hn, Char.ofNat_toNat]
  have hr : (0x30 ≤ n ∧ n ≤ 0x39) ∨ (0x41 ≤ n ∧ n ≤ 0x46) ∨ (0x61 ≤ n ∧ n ≤ 0x66) := by
    unfold QChar.hexDigit at h
    rw [hn] at h
    dsimp only at h
    by_contra hcon
    push_neg at hcon
    rw [if_neg (fun h' => absurd h'.2 (by have := hcon.1 h'.1; omega)),
      if_neg (fun h' => absurd h'.2 (by have := hcon.2.1 h'.1; omega)),
      if_neg (fun h' => absurd h'.2 (by have := hcon.2.2 h'.1; omega))] at h
    exact absurd h (by simp)
  subst hc
  rcases hr with ⟨h1, h2⟩ | ⟨h1, h2⟩ | ⟨h1, h2⟩ <;> interval_cases n <;>
    (revert h; revert d; decide)

/-- Every character of a text of digits is a digit. -/
theorem isHex_mem (h : QString) (hh : QString.isHex h = true) (c : Char) (hc : c ∈ h) :
    ∃ d, QChar.hexDigit c = some d := by
  unfold QString.isHex at hh
  rw [Bool.and_eq_true] at hh
  exact Option.isSome_iff_exists.1 (List.all_eq_true.1 hh.2 c hc)

/-- A text of digits is not empty. -/
theorem isHex_ne_nil (h : QString) (hh : QString.isHex h = true) : h ≠ [] := by
  intro h0
  subst h0
  exact absurd hh (by decide)

/-- A text of digits holds no white space. -/
theorem isHex_no_space (h : QString) (hh : QString.isHex h = true) :
    ∀ c ∈ h, QChar.isSpace c = false := by
  intro c hc
  obtain ⟨d, hd⟩ := isHex_mem h hh c hc
  exact (hexDigit_cases c d hd).2.1

/-- The digit loop on digits only is the left fold that computes the value. -/
theorem hexLoop_eq (h : QString) (acc : Nat)
    (hh : ∀ c ∈ h, ∃ d, QChar.hexDigit c = some d) :
    QString.hexLoop acc h =
      some (h.foldl (fun a c => a * 16 + (QChar.hexDigit c).getD 0) acc) := by
  induction h generalizing acc with
  | nil => rfl
  | cons c h ih =>
    obtain ⟨d, hd⟩ := hh c (List.mem_cons_self _ _)
    unfold QString.hexLoop
    rw [hd]
    dsimp only
    rw [ih _ (fun x hx => hh x (List.mem_cons_of_mem _ hx)), List.foldl_cons, hd]
    rfl

/-- On a text of digits the conversion reads no sign and no prefix, only the
value. -/
theorem signedMagnitude_isHex (h : QString) (hh : QString.isHex h = true) :
    QString.signedMagnitude h = some (false, hexValue h) := by
  have hmem := isHex_mem h hh
  cases h with
  | nil => exact absurd rfl (isHex_ne_nil _ hh)
  | cons c r =>
    obtain ⟨d, hd⟩ := hmem c (List.mem_cons_self _ _)
    have hc := hexDigit_cases c d hd
    have h0x : QString.startsWith0x (c :: r) = false := by
      cases r with
      | nil => rfl
      | cons e r =>
        obtain ⟨d', hd'⟩ := hmem e (by simp)
        have he := hexDigit_cases e d' hd'
        unfold QString.startsWith0x
        simp [he.2.2.2.2.2.1, he.2.2.2.2.2.2.1]
    have hplus : (c == '+') = false := by simp [hc.2.2.2.1]
    unfold QString.signedMagnitude
    dsimp only
    rw [hc.2.2.1, hplus]
    simp only [Bool.false_eq_true, if_false]
    unfold QString.hexMagnitude
    rw [h0x]
    simp only [Bool.false_eq_true, if_false]
    unfold QString.hexDigits
    dsimp only
    rw [hexLoop_eq _ _ hmem]
    rfl

/-- The function `toInt(&ok, 16)` on a text of digits whose value fits an `int`. -/
theorem toInt16_isHex (h : QString) (hh : QString.isHex h = true)
    (hv : hexValue h ≤ 2147483647) : QString.toInt16 h = some (hexValue h : Int) := by
  unfold QString.toInt16
  rw [trimmed_eq_self _ (isHex_no_space h hh), signedMagnitude_isHex h hh]
  dsimp only
  simp only [Bool.false_eq_true, if_false]
  rw [if_pos (by omega)]

/-- The function `toInt(&ok, 16)` fails on a text of digits whose value does not fit an
`int`. -/
theorem toInt16_isHex_overflow (h : QString) (hh : QString.isHex h = true)
    (hv : 2147483647 < hexValue h) : QString.toInt16 h = none := by
  unfold QString.toInt16
  rw [trimmed_eq_self _ (isHex_no_space h hh), signedMagnitude_isHex h hh]
  dsimp only
  simp only [Bool.false_eq_true, if_false]
  rw [if_neg (by omega)]

/-- The function `toUInt(&ok, 16)` on a text of digits whose value fits a `uint`. -/
theorem toUInt16_isHex (h : QString) (hh : QString.isHex h = true)
    (hv : hexValue h ≤ 4294967295) : QString.toUInt16 h = some (hexValue h) := by
  unfold QString.toUInt16
  rw [trimmed_eq_self _ (isHex_no_space h hh), signedMagnitude_isHex h hh]
  dsimp only
  simp only [Bool.false_eq_true, if_false]
  rw [if_pos hv]

/-- The conversion `char(v)` keeps a value between 0 and 255. -/
theorem toChar_natCast (n : Nat) (hn : n ≤ 255) : toChar (n : Int) = n := by
  unfold toChar
  omega

/-! ## Splitting at colons -/

/-- A text without the separator is a single field. -/
theorem split_no_sep (g : QString) (hg : ':' ∉ g) : QString.split ':' g = [g] := by
  induction g with
  | nil => rfl
  | cons c g ih =>
    have hc : c ≠ ':' := fun h => hg (by simp [h])
    have hg' : ':' ∉ g := fun h => hg (List.mem_cons_of_mem _ h)
    unfold QString.split
    rw [if_neg hc, ih hg']

/-- A field without the separator, followed by the separator, is split off. -/
theorem split_append_sep (g rest : QString) (hg : ':' ∉ g) :
    QString.split ':' (g ++ ':' :: rest) = g :: QString.split ':' rest := by
  induction g with
  | nil =>
    rw [List.nil_append, QString.split, if_pos rfl]
  | cons c g ih =>
    have hc : c ≠ ':' := fun h => hg (by simp [h])
    have hg' : ':' ∉ g := fun h => hg (List.mem_cons_of_mem _ h)
    rw [List.cons_append, QString.split, if_neg hc, ih hg']

/-- Joining with colons: one field more. -/
theorem intercalate_cons_cons (g g' : QString) (gs : List QString) :
    [':'].intercalate (g :: g' :: gs) = g ++ ':' :: [':'].intercalate (g' :: gs) := by
  simp [List.intercalate, List.intersperse]

/-- Splitting undoes joining with colons when no field holds a colon. -/
theorem split_intercalate (groups : List QString) (hne : groups ≠ [])
    (hg : ∀ g ∈ groups, ':' ∉ g) :
    QString.split ':' ([':'].intercalate groups) = groups := by
  induction groups with
  | nil => exact absurd rfl hne
  | cons g gs ih =>
    cases gs with
    | nil =>
      have h1 : [':'].intercalate [g] = g := by simp [List.intercalate, List.intersperse]
      rw [h1, split_no_sep g (hg g (by simp))]
    | cons g' gs =>
      rw [intercalate_cons_cons, split_append_sep _ _ (hg g (by simp)),
        ih (by simp) (fun x hx => hg x (List.mem_cons_of_mem _ hx))]

/-- A text of digits holds no colon. -/
theorem isHex_no_colon (h : QString) (hh : QString.isHex h = true) : ':' ∉ h := by
  intro hc
  obtain ⟨d, hd⟩ := isHex_mem h hh _ hc
  exact (hexDigit_cases _ d hd).2.2.2.2.1 rfl

/-- Fields of digits joined with colons hold no white space. -/
theorem intercalate_no_space (groups : List QString)
    (hg : ∀ g ∈ groups, QString.isHex g = true) :
    ∀ c ∈ [':'].intercalate groups, QChar.isSpace c = false := by
  induction groups with
  | nil => intro c hc; simp [List.intercalate, List.intersperse] at hc
  | cons g gs ih =>
    cases gs with
    | nil =>
      have h1 : [':'].intercalate [g] = g := by simp [List.intercalate, List.intersperse]
      rw [h1]
      exact isHex_no_space g (hg g (by simp))
    | cons g' gs =>
      rw [intercalate_cons_cons]
      intro c hc
      rcases List.mem_append.1 hc with h | h
      · exact isHex_no_space g (hg g (by simp)) c h
      · rcases List.mem_cons.1 h with h | h
        · rw [h]
          decide
        · exact ih (fun x hx => hg x (List.mem_cons_of_mem _ hx)) c h

/-- The loop of `parseMac` on fields of digits with values up to 255 appends the
values. -/
theorem parseMacLoop_isHex (groups : List QString) (out : QByteArray)
    (hg : ∀ g ∈ groups, QString.isHex g = true ∧ hexValue g ≤ 255) :
    parseMacLoop groups out = (out ++ groups.map hexValue, true) := by
  induction groups generalizing out with
  | nil => simp [parseMacLoop]
  | cons g gs ih =>
    obtain ⟨h1, h2⟩ := hg g (by simp)
    unfold parseMacLoop
    rw [toInt16_isHex g h1 (by omega)]
    dsimp only
    rw [if_neg (by omega), toChar_natCast _ h2,
      ih _ (fun x hx => hg x (List.mem_cons_of_mem _ hx))]
    simp

/-- On six fields of digits with values up to 255, joined by colons and
surrounded by white space, `parseMac` succeeds with the values in order. -/
theorem parseMac_of_groups (groups : List QString) (ws1 ws2 : QString)
    (hlen : groups.length = 6)
    (hg : ∀ g ∈ groups, QString.isHex g = true ∧ hexValue g ≤ 255)
    (h1 : QString.isSpaces ws1 = true) (h2 : QString.isSpaces ws2 = true) :
    parseMac (ws1 ++ [':'].intercalate groups ++ ws2) = (groups.map hexValue, true) := by
  have hne : groups ≠ [] := by
    intro h0
    rw [h0] at hlen
    exact absurd hlen (by decide)
  unfold parseMac
  dsimp only
  rw [trimmed_pad_eq _ _ _ h1 h2 (intercalate_no_space groups (fun g hx => (hg g hx).1)),
    split_intercalate groups hne (fun g hx => isHex_no_colon g (hg g hx).1),
    if_neg (by simp [hlen]), parseMacLoop_isHex groups [] hg]
  rfl

/-- C4: on a text of exactly six colon-separated groups of base-16 digits, each
of value at most 255, with optional white space around it, `parseMac` reports
success and returns exactly six bytes, the i-th being the base-16 value of the
i-th group; and on any text a failing `parseMac` returns the empty array and a
successful one returns six bytes, so no partial address is ever returned. -/
theorem parseMac_valid (groups : List QString) (ws1 ws2 : QString)
    (hlen : groups.length = 6)
    (hg : ∀ g ∈ groups, QString.isHex g = true ∧ hexValue g ≤ 255)
    (h1 : QString.isSpaces ws1 = true) (h2 : QString.isSpaces ws2 = true) :
    parseMac (ws1 ++ [':'].intercalate groups ++ ws2) = (groups.map hexValue, true) ∧
      (groups.map hexValue).length = 6 ∧
      (∀ i : Nat, (groups.map hexValue)[i]? = (groups[i]?).map hexValue) ∧
      (∀ s, (parseMac s).2 = false → (parseMac s).1 = []) ∧
      (∀ s, (parseMac s).2 = true →
        (parseMac s).1.length = 6 ∧ ∀ b ∈ (parseMac s).1, b < 256) := by
  refine ⟨parseMac_of_groups groups ws1 ws2 hlen hg h1 h2, by simp [hlen],
    fun i => List.getElem?_map _ _ _, ?_, ?_⟩
  · intro s hs
    rcases parseMac_shape s with h | h
    · exact h.2
    · rw [hs] at h
      exact absurd h.1 (by simp)
  · intro s hs
    rcases parseMac_shape s with h | h
    · rw [hs] at h
      exact absurd h.1 (by simp)
    · exact h.2

/-- C4 at the text " AA:bb:0C:DD:EE:FF" followed by a line feed. -/
theorem parseMac_valid_witness :
    parseMac " AA:bb:0C:DD:EE:FF\n".toList = ([0xAA, 0xBB, 0x0C, 0xDD, 0xEE, 0xFF], true) :=
  (parseMac_valid ["AA".toList, "bb".toList, "0C".toList, "DD".toList, "EE".toList,
    "FF".toList] " ".toList "\n".toList (by decide) (by decide) (by decide) (by decide)).1

set_option maxRecDepth 100000 in
/-- The two digits of a byte are digits and read back as the byte. -/
theorem formatByte_spec :
    ∀ v, v < 256 → QString.isHex (formatByte v) = true ∧ hexValue (formatByte v) = v := by
  decide

/-- C5: MAC round trip.  Whenever `parseMac` succeeds on a text with bytes `b`,
formatting `b` as six upper-case two-digit groups joined by colons and parsing
that text again succeeds with the same `b`; equivalently `parseMac (formatMac b)`
gives `b` for every sequence `b` of six bytes. -/
theorem parseMac_roundtrip :
    (∀ (t : QString) (b : QByteArray), parseMac t = (b, true) →
        parseMac (formatMac b) = (b, true)) ∧
      (∀ b : QByteArray, b.length = 6 → (∀ x ∈ b, x < 256) →
        parseMac (formatMac b) = (b, true)) := by
  have key : ∀ b : QByteArray, b.length = 6 → (∀ x ∈ b, x < 256) →
      parseMac (formatMac b) = (b, true) := by
    intro b hlen hb
    have h := parseMac_of_groups (b.map formatByte) [] [] (by simp [hlen])
      (by
        intro g hg
        obtain ⟨x, hx, rfl⟩ := List.mem_map.1 hg
        have hx' := hb x hx
        have := formatByte_spec x hx'
        exact ⟨this.1, by rw [this.2]; omega⟩)
      rfl rfl
    rw [List.nil_append, List.append_nil, List.map_map] at h
    have hid : List.map (hexValue ∘ formatByte) b = b := by
      conv_rhs => rw [← List.map_id b]
      exact List.map_congr_left (fun x hx => (formatByte_spec x (hb x hx)).2)
    rw [hid] at h
    exact h
  refine ⟨?_, key⟩
  intro t b ht
  rcases parseMac_shape t with h | h
  · rw [ht] at h
    exact absurd h.1 (by simp)
  · rw [ht] at h
    exact key b h.2.1 h.2.2

/-- C5 at the text "aa:0b:Cc:dD:ee:ff": its bytes format to "AA:0B:CC:DD:EE:FF",
which parses to the same bytes. -/
theorem parseMac_roundtrip_witness :
    parseMac "aa:0b:Cc:dD:ee:ff".toList = ([0xAA, 0x0B, 0xCC, 0xDD, 0xEE, 0xFF], true) ∧
      formatMac [0xAA, 0x0B, 0xCC, 0xDD, 0xEE, 0xFF] = "AA:0B:CC:DD:EE:FF".toList ∧
      parseMac (formatMac [0xAA, 0x0B, 0xCC, 0xDD, 0xEE, 0xFF]) =
        ([0xAA, 0x0B, 0xCC, 0xDD, 0xEE, 0xFF], true) :=
  ⟨by decide, by decide,
    parseMac_roundtrip.1 "aa:0b:Cc:dD:ee:ff".toList [0xAA, 0x0B, 0xCC, 0xDD, 0xEE, 0xFF]
      (by decide)⟩

/-! ## `parseMac` in terms of the fields of the untrimmed text -/

/-- Splitting never gives an empty list of fields. -/
theorem split_ne_nil (s : QString) : QString.split ':' s ≠ [] := by
  cases s with
  | nil => simp [QString.split]
  | cons c cs =>
    unfold QString.split
    by_cases hc : c = ':'
    · rw [if_pos hc]
      simp
    · rw [if_neg hc]
      cases QString.split ':' cs <;> simp

/-- White space is not a colon. -/
theorem isSpace_ne_colon (c : Char) (hc : QChar.isSpace c = true) : c ≠ ':' := by
  intro h
  rw [h] at hc
  exact absurd hc (by decide)

/-- The integer conversion ignores white space around the text. -/
theorem toInt16_pad (w1 b w2 : QString) (h1 : QString.isSpaces w1 = true)
    (h2 : QString.isSpaces w2 = true) :
    QString.toInt16 (w1 ++ b ++ w2) = QString.toInt16 b := by
  unfold QString.toInt16
  rw [trimmed_pad _ _ _ h1 h2]

/-- White space before the text only changes the first field, by white space
the integer conversion ignores. -/
theorem split_spaces_prefix (w r : QString) (hw : QString.isSpaces w = true) :
    (QString.split ':' (w ++ r)).map QString.toInt16 =
      (QString.split ':' r).map QString.toInt16 := by
  have key : List.Forall₂ (fun a b => ∃ w', QString.isSpaces w' = true ∧ a = w' ++ b)
      (QString.split ':' (w ++ r)) (QString.split ':' r) := by
    induction w with
    | nil =>
      rw [List.nil_append]
      exact List.forall₂_same.2 (fun x _ => ⟨[], rfl, rfl⟩)
    | cons c w ih =>
      unfold QString.isSpaces at hw ih
      rw [List.all_cons, Bool.and_eq_true] at hw
      have ih' := ih hw.2
      rw [List.cons_append, QString.split, if_neg (isSpace_ne_colon c hw.1)]
      obtain ⟨p, ps, hp⟩ := List.exists_cons_of_ne_nil (split_ne_nil (w ++ r))
      obtain ⟨q, qs, hq⟩ := List.exists_cons_of_ne_nil (split_ne_nil r)
      rw [hp, hq] at ih'
      rw [hp, hq]
      obtain ⟨⟨w', hw', hab⟩, htl⟩ := List.forall₂_cons.1 ih'
      refine List.Forall₂.cons ⟨c :: w', ?_, by rw [hab]; rfl⟩ htl
      unfold QString.isSpaces
      rw [List.all_cons, Bool.and_eq_true]
      exact ⟨hw.1, hw'⟩
  generalize QString.split ':' (w ++ r) = l1 at key
  generalize QString.split ':' r = l2 at key
  induction key with
  | nil => rfl
  | @cons a b _ _ hab _ ih =>
    obtain ⟨w', hw', rfl⟩ := hab
    rw [List.map_cons, List.map_cons, ih]
    have := toInt16_pad w' b [] hw' rfl
    rw [List.append_nil] at this
    rw [this]

/-- White space after the text only changes the last field, by white space the
integer conversion ignores. -/
theorem split_spaces_suffix (r w : QString) (hw : QString.isSpaces w = true) :
    (QString.split ':' (r ++ w)).map QString.toInt16 =
      (QString.split ':' r).map QString.toInt16 := by
  have hcolon : ':' ∉ w := fun h =>
    isSpace_ne_colon ':' (List.all_eq_true.1 hw _ h) rfl
  have key : List.Forall₂ (fun a b => ∃ w', QString.isSpaces w' = true ∧ a = b ++ w')
      (QString.split ':' (r ++ w)) (QString.split ':' r) := by
    induction r with
    | nil =>
      rw [List.nil_append, split_no_sep w hcolon]
      exact List.Forall₂.cons ⟨w, hw, rfl⟩ List.Forall₂.nil
    | cons c r ih =>
      rw [List.cons_append, QString.split, QString.split]
      by_cases hc : c = ':'
      · rw [if_pos hc, if_pos hc]
        exact List.Forall₂.cons ⟨[], rfl, rfl⟩ ih
      · rw [if_neg hc, if_neg hc]
        obtain ⟨p, ps, hp⟩ := List.exists_cons_of_ne_nil (split_ne_nil (r ++ w))
        obtain ⟨q, qs, hq⟩ := List.exists_cons_of_ne_nil (split_ne_nil r)
        rw [hp, hq] at ih
        rw [hp, hq]
        obtain ⟨⟨w', hw', hab⟩, htl⟩ := List.forall₂_cons.1 ih
        exact List.Forall₂.cons ⟨w', hw', by rw [hab]; rfl⟩ htl
  generalize QString.split ':' (r ++ w) = l1 at key
  generalize QString.split ':' r = l2 at key
  induction key with
  | nil => rfl
  | @cons a b _ _ hab _ ih =>
    obtain ⟨w', hw', rfl⟩ := hab
    rw [List.map_cons, List.map_cons, ih]
    have := toInt16_pad [] b w' rfl hw'
    rw [List.nil_append] at this
    rw [this]

/-- A text is its trimmed form between two runs of white space. -/
theorem trimmed_decomp (s : QString) :
    ∃ w1 w2, QString.isSpaces w1 = true ∧ QString.isSpaces w2 = true ∧
      s = w1 ++ QString.trimmed s ++ w2 := by
  refine ⟨s.takeWhile QChar.isSpace, (s.dropWhile QChar.isSpace).rtakeWhile QChar.isSpace,
    List.all_takeWhile, ?_, ?_⟩
  · unfold QString.isSpaces List.rtakeWhile
    rw [List.all_reverse]
    exact List.all_takeWhile
  · have h : ∀ l : QString,
        l.rdropWhile QChar.isSpace ++ l.rtakeWhile QChar.isSpace = l := by
      intro l
      unfold List.rdropWhile List.rtakeWhile
      rw [← List.reverse_append, List.takeWhile_append_dropWhile, List.reverse_reverse]
    unfold QString.trimmed
    rw [List.append_assoc, h, List.takeWhile_append_dropWhile]

/-- The loop of `parseMac` only looks at the conversion of each field. -/
theorem parseMacLoop_congr (l1 l2 : List QString) (out : QByteArray)
    (h : l1.map QString.toInt16 = l2.map QString.toInt16) :
    parseMacLoop l1 out = parseMacLoop l2 out := by
  induction l1 generalizing l2 out with
  | nil =>
    cases l2 with
    | nil => rfl
    | cons _ _ => simp at h
  | cons a l1 ih =>
    cases l2 with
    | nil => simp at h
    | cons b l2 =>
      rw [List.map_cons, List.map_cons] at h
      obtain ⟨hab, htl⟩ := List.cons.inj h
      unfold parseMacLoop
      rw [hab]
      cases QString.toInt16 b with
      | none => rfl
      | some v =>
        dsimp only
        rw [ih l2 _ htl]

/-- The function `parseMac` expressed on the fields of the text as given: trimming the text
first changes nothing the conversion of the fields sees. -/
theorem parseMac_eq_raw (s : QString) :
    parseMac s =
      if (QString.split ':' s).length ≠ 6 then ([], false)
      else parseMacLoop (QString.split ':' s) [] := by
  obtain ⟨w1, w2, h1, h2, hs⟩ := trimmed_decomp s
  have hmap : (QString.split ':' s).map QString.toInt16 =
      (QString.split ':' (QString.trimmed s)).map QString.toInt16 := by
    conv_lhs => rw [hs]
    rw [split_spaces_suffix _ _ h2, split_spaces_prefix _ _ h1]
  have hlen : (QString.split ':' s).length = (QString.split ':' (QString.trimmed s)).length := by
    have := congrArg List.length hmap
    rwa [List.length_map, List.length_map] at this
  unfold parseMac
  dsimp only
  rw [hlen, parseMacLoop_congr _ _ [] hmap]

/-- The digit loop succeeds on digits only. -/
theorem hexLoop_some (h : QString) (acc n : Nat) (hn : QString.hexLoop acc h = some n) :
    ∀ c ∈ h, (QChar.hexDigit c).isSome = true := by
  induction h generalizing acc with
  | nil => intro c hc; cases hc
  | cons a h ih =>
    unfold QString.hexLoop at hn
    cases ha : QChar.hexDigit a with
    | none =>
      rw [ha] at hn
      exact absurd hn (by simp)
    | some d =>
      rw [ha] at hn
      intro c hc
      rcases List.mem_cons.1 hc with rfl | hc
      · rw [ha]
        rfl
      · exact ih _ hn c hc

/-- At least one digit, and digits only. -/
theorem hexDigits_some (h : QString) (n : Nat) (hn : QString.hexDigits h = some n) :
    ∀ c ∈ h, (QChar.hexDigit c).isSome = true := by
  cases h with
  | nil => intro c hc; cases hc
  | cons a h => exact hexLoop_some _ 0 n hn

/-- The unsigned part holds digits and the letter of the prefix only. -/
theorem hexMagnitude_some (s : QString) (n : Nat) (hn : QString.hexMagnitude s = some n) :
    ∀ c ∈ s, QChar.isNumberChar c = true := by
  unfold QString.hexMagnitude at hn
  by_cases h0x : QString.startsWith0x s = true
  · rw [if_pos h0x] at hn
    have hrest := hexDigits_some _ n hn
    match s, h0x, hrest with
    | a :: b :: rest, h0x, hrest =>
      unfold QString.startsWith0x at h0x
      rw [Bool.and_eq_true, Bool.or_eq_true] at h0x
      intro c hc
      rcases List.mem_cons.1 hc with rfl | hc
      · have : c = '0' := by simpa using h0x.1
        rw [this]
        decide
      · rcases List.mem_cons.1 hc with rfl | hc
        · rcases h0x.2 with h | h
          · have : c = 'x' := by simpa using h
            rw [this]
            decide
          · have : c = 'X' := by simpa using h
            rw [this]
            decide
        · have := hrest c hc
          unfold QChar.isNumberChar
          simp [this]
  · rw [if_neg h0x] at hn
    intro c hc
    have := hexDigits_some _ n hn c hc
    unfold QChar.isNumberChar
    simp [this]

/-- A sign and an unsigned part hold number characters only. -/
theorem signedMagnitude_some (s : QString) (r : Bool × Nat)
    (hr : QString.signedMagnitude s = some r) : ∀ c ∈ s, QChar.isNumberChar c = true := by
  cases s with
  | nil => intro c hc; cases hc
  | cons a s =>
    unfold QString.signedMagnitude at hr
    dsimp only at hr
    by_cases hm : QChar.isMinus a = true
    · rw [if_pos hm] at hr
      obtain ⟨n, hn, -⟩ := Option.map_eq_some'.1 hr
      intro c hc
      rcases List.mem_cons.1 hc with rfl | hc
      · unfold QChar.isNumberChar
        simp [hm]
      · exact hexMagnitude_some _ n hn c hc
    · rw [if_neg hm] at hr
      by_cases hp : (a == '+') = true
      · rw [if_pos hp] at hr
        obtain ⟨n, hn, -⟩ := Option.map_eq_some'.1 hr
        intro c hc
        rcases List.mem_cons.1 hc with rfl | hc
        · unfold QChar.isNumberChar
          simp [hp]
        · exact hexMagnitude_some _ n hn c hc
      · rw [if_neg hp] at hr
        obtain ⟨n, hn, -⟩ := Option.map_eq_some'.1 hr
        exact hexMagnitude_some _ n hn

/-- A text the integer conversion accepts holds number characters only. -/
theorem toInt16_some (g : QString) (v : Int) (hv : QString.toInt16 g = some v) :
    ∀ c ∈ g, QChar.isNumberChar c = true := by
  obtain ⟨w1, w2, h1, h2, hg⟩ := trimmed_decomp g
  unfold QString.toInt16 at hv
  cases hsm : QString.signedMagnitude (QString.trimmed g) with
  | none =>
    rw [hsm] at hv
    exact absurd hv (by simp)
  | some r =>
    have hmid := signedMagnitude_some _ r hsm
    have hsp : ∀ w : QString, QString.isSpaces w = true →
        ∀ c ∈ w, QChar.isNumberChar c = true := by
      intro w hw c hc
      have := List.all_eq_true.1 hw c hc
      unfold QChar.isNumberChar
      simp [this]
    intro c hc
    rw [hg] at hc
    rcases List.mem_append.1 hc with hc | hc
    · rcases List.mem_append.1 hc with hc | hc
      · exact hsp w1 h1 c hc
      · exact hmid c hc
    · exact hsp w2 h2 c hc

/-- The loop of `parseMac` fails as soon as one field does not convert or
converts to a value outside `0..255`. -/
theorem parseMacLoop_fail (ps : List QString) (out : QByteArray) (g : QString)
    (hg : g ∈ ps)
    (hbad : QString.toInt16 g = none ∨ ∃ v, QString.toInt16 g = some v ∧ (v < 0 ∨ 255 < v)) :
    parseMacLoop ps out = ([], false) := by
  induction ps generalizing out with
  | nil => cases hg
  | cons p ps ih =>
    unfold parseMacLoop
    cases hp : QString.toInt16 p with
    | none => rfl
    | some v =>
      dsimp only
      by_cases hv : v < 0 ∨ v > 255
      · rw [if_pos hv]
      · rw [if_neg hv]
        rcases List.mem_cons.1 hg with rfl | hg'
        · rcases hbad with h | ⟨v', h, hv'⟩
          · rw [hp] at h
            exact absurd h (by simp)
          · rw [hp] at h
            have := Option.some.inj h
            subst this
            exact absurd hv' hv
        · exact ih _ hg'

/-- The function `parseMac` fails as soon as one field of the text does not convert or
converts to a value outside `0..255`. -/
theorem parseMac_fail_of_group (s g : QString) (hg : g ∈ QString.split ':' s)
    (hbad : QString.toInt16 g = none ∨ ∃ v, QString.toInt16 g = some v ∧ (v < 0 ∨ 255 < v)) :
    parseMac s = ([], false) := by
  rw [parseMac_eq_raw]
  by_cases h : (QString.split ':' s).length ≠ 6
  · rw [if_pos h]
  · rw [if_neg h]
    exact parseMacLoop_fail _ [] g hg hbad

/-- C6: `parseMac` fails (empty result, `ok = false`) on every text whose number
of colon-separated groups is not 6; on every text with a group that
`toInt(&ok, 16)` does not convert, in particular an empty group or a group
holding a character that is no digit, sign, prefix letter or white space; and
on every text with a group whose value lies outside `0..255`, whether the
conversion returns it or the digits overflow.  The three examples of the
specification and a text with an empty group fail. -/
theorem parseMac_rejects (s : QString) :
    ((QString.split ':' s).length ≠ 6 → parseMac s = ([], false)) ∧
      (∀ g ∈ QString.split ':' s, QString.toInt16 g = none → parseMac s = ([], false)) ∧
      (∀ g ∈ QString.split ':' s, g = [] → parseMac s = ([], false)) ∧
      (∀ g ∈ QString.split ':' s, (∃ c ∈ g, QChar.isNumberChar c = false) →
        parseMac s = ([], false)) ∧
      (∀ g ∈ QString.split ':' s, ∀ v, QString.toInt16 g = some v → (v < 0 ∨ 255 < v) →
        parseMac s = ([], false)) ∧
      (∀ g ∈ QString.split ':' s, QString.isHex g = true → 255 < hexValue g →
        parseMac s = ([], false)) ∧
      parseMac "AA:BB:CC:DD:EE".toList = ([], false) ∧
      parseMac "GG:00:00:00:00:00".toList = ([], false) ∧
      parseMac "AA::CC:DD:EE:FF".toList = ([], false) ∧
      parseMac "100:00:00:00:00:00".toList = ([], false) := by
  refine ⟨?_, ?_, ?_, ?_, ?_, ?_, by decide, by decide, by decide, by decide⟩
  · intro h
    rw [parseMac_eq_raw, if_pos h]
  · intro g hg h
    exact parseMac_fail_of_group s g hg (Or.inl h)
  · intro g hg h
    subst h
    exact parseMac_fail_of_group s [] hg (Or.inl (by decide))
  · intro g hg ⟨c, hc, hbad⟩
    refine parseMac_fail_of_group s g hg (Or.inl ?_)
    cases h : QString.toInt16 g with
    | none => rfl
    | some v =>
      have := toInt16_some g v h c hc
      rw [hbad] at this
      exact absurd this (by simp)
  · intro g hg v h hv
    exact parseMac_fail_of_group s g hg (Or.inr ⟨v, h, hv⟩)
  · intro g hg hh hv
    by_cases hbig : hexValue g ≤ 2147483647
    · exact parseMac_fail_of_group s g hg
        (Or.inr ⟨_, toInt16_isHex g hh hbig, Or.inr (by omega)⟩)
    · exact parseMac_fail_of_group s g hg
        (Or.inl (toInt16_isHex_overflow g hh (by omega)))

/-- C6 at the text "AA:BB:CC:DD:EE", which has five groups. -/
theorem parseMac_rejects_witness :
    (QString.split ':' "AA:BB:CC:DD:EE".toList).length ≠ 6 ∧
      parseMac "AA:BB:CC:DD:EE".toList = ([], false) :=
  ⟨by decide, (parseMac_rejects "AA:BB:CC:DD:EE".toList).1 (by decide)⟩

/-! ## `parseEtherType` -/

/-- Changing the case of a base-16 digit keeps it a digit of the same value. -/
theorem hexDigit_case (c : Char) (d : Nat) (h : QChar.hexDigit c = some d) :
    QChar.hexDigit c.toLower = some d ∧ QChar.hexDigit c.toUpper = some d := by
  obtain ⟨n, hn⟩ : ∃ n, c.toNat = n := ⟨_, rfl⟩
  have hc : c = Char.ofNat n := by rw [← hn, Char.ofNat_toNat]
  have hr : (0x30 ≤ n ∧ n ≤ 0x39) ∨ (0x41 ≤ n ∧ n ≤ 0x46) ∨ (0x61 ≤ n ∧ n ≤ 0x66) := by
    unfold QChar.hexDigit at h
    rw [hn] at h
    dsimp only at h
    by_contra hcon
    push_neg at hcon
    rw [if_neg (fun h' => absurd h'.2 (by have := hcon.1 h'.1; omega)),
      if_neg (fun h' => absurd h'.2 (by have := hcon.2.1 h'.1; omega)),
      if_neg (fun h' => absurd h'.2 (by have := hcon.2.2 h'.1; omega))] at h
    exact absurd h (by simp)
  subst hc
  rcases hr with ⟨h1, h2⟩ | ⟨h1, h2⟩ | ⟨h1, h2⟩ <;> interval_cases n <;>
    (revert h; revert d; decide)

/-- A case variant of digits has the same digits, place by place. -/
theorem isCaseVariant_hexDigits (h h' : QString) (hc : QString.isCaseVariant h h' = true)
    (hh : ∀ c ∈ h, ∃ d, QChar.hexDigit c = some d) :
    h'.map QChar.hexDigit = h.map QChar.hexDigit := by
  induction h generalizing h' with
  | nil =>
    cases h' with
    | nil => rfl
    | cons _ _ => exact absurd hc (by simp [QString.isCaseVariant])
  | cons c h ih =>
    cases h' with
    | nil => exact absurd hc (by simp [QString.isCaseVariant])
    | cons c' h' =>
      unfold QString.isCaseVariant at hc
      rw [Bool.and_eq_true, Bool.or_eq_true] at hc
      obtain ⟨d, hd⟩ := hh c (List.mem_cons_self _ _)
      have hcase := hexDigit_case c d hd
      have hc' : QChar.hexDigit c' = QChar.hexDigit c := by
        rcases hc.1 with h1 | h1
        · rw [beq_iff_eq.1 h1, hcase.1, hd]
        · rw [beq_iff_eq.1 h1, hcase.2, hd]
      rw [List.map_cons, List.map_cons, hc',
        ih h' hc.2 (fun x hx => hh x (List.mem_cons_of_mem _ hx))]

/-- Being a text of digits only depends on the digit values of the characters. -/
theorem isHex_eq_of_map (h h' : QString) (hm : h'.map QChar.hexDigit = h.map QChar.hexDigit) :
    QString.isHex h' = QString.isHex h := by
  have h1 : h'.isEmpty = h.isEmpty := by
    cases h <;> cases h' <;> simp at hm ⊢
  have h2 : h'.all (fun c => (QChar.hexDigit c).isSome) =
      h.all (fun c => (QChar.hexDigit c).isSome) := by
    have e : ∀ l : QString, l.all (fun c => (QChar.hexDigit c).isSome) =
        (l.map QChar.hexDigit).all Option.isSome := by
      intro l
      induction l with
      | nil => rfl
      | cons c l ih => rw [List.all_cons, List.map_cons, List.all_cons, ih]
    rw [e, e, hm]
  unfold QString.isHex
  rw [h1, h2]

/-- The value of a text only depends on the digit values of the characters. -/
theorem hexValue_eq_of_map (h h' : QString)
    (hm : h'.map QChar.hexDigit = h.map QChar.hexDigit) : hexValue h' = hexValue h := by
  have e : ∀ (l : QString) (acc : Nat),
      l.foldl (fun a c => a * 16 + (QChar.hexDigit c).getD 0) acc =
        (l.map QChar.hexDigit).foldl (fun a o => a * 16 + o.getD 0) acc := by
    intro l
    induction l with
    | nil => intro acc; rfl
    | cons c l ih => intro acc; rw [List.foldl_cons, List.map_cons, List.foldl_cons, ih]
  unfold hexValue
  rw [e, e, hm]

/-- A text of digits does not start with the `0x` prefix. -/
theorem startsWith0x_isHex (h : QString) (hh : QString.isHex h = true) :
    QString.startsWith0x h = false := by
  have hmem := isHex_mem h hh
  match h, hmem with
  | [], _ => rfl
  | [_], _ => rfl
  | _ :: e :: _, hmem =>
    obtain ⟨d', hd'⟩ := hmem e (by simp)
    have he := hexDigit_cases e d' hd'
    unfold QString.startsWith0x
    simp [he.2.2.2.2.2.1, he.2.2.2.2.2.2.1]

/-- The function `parseEtherType` on digits of value up to 0xFFFF, with an optional `0x` or `0X`
in front and white space around. -/
theorem parseEtherType_isHex (h pre ws1 ws2 : QString) (hh : QString.isHex h = true)
    (hv : hexValue h ≤ 0xFFFF)
    (hpre : pre = [] ∨ pre = "0x".toList ∨ pre = "0X".toList)
    (h1 : QString.isSpaces ws1 = true) (h2 : QString.isSpaces ws2 = true) :
    parseEtherType (ws1 ++ pre ++ h ++ ws2) = some (hexValue h) := by
  have hns : ∀ c ∈ pre ++ h, QChar.isSpace c = false := by
    intro c hc
    rcases List.mem_append.1 hc with hc | hc
    · rcases hpre with rfl | rfl | rfl
      · cases hc
      · have h0 : ∀ c ∈ "0x".toList, QChar.isSpace c = false := by decide
        exact h0 c hc
      · have h0 : ∀ c ∈ "0X".toList, QChar.isSpace c = false := by decide
        exact h0 c hc
    · exact isHex_no_space h hh c hc
  have hstrip : (if QString.startsWith0x (pre ++ h) then QString.mid (pre ++ h) 2
      else pre ++ h) = h := by
    rcases hpre with rfl | rfl | rfl
    · rw [List.nil_append, startsWith0x_isHex h hh]
      rfl
    · rfl
    · rfl
  unfold parseEtherType
  dsimp only
  rw [List.append_assoc ws1 pre h, trimmed_pad_eq _ _ _ h1 h2 hns, hstrip,
    toUInt16_isHex h hh (by omega)]
  dsimp only
  rw [if_neg (by omega), Nat.mod_eq_of_lt (by omega)]

/-- C7: for every nonempty text `h` of base-16 digits whose value is at most
0xFFFF, `parseEtherType` succeeds with that value on `h`, on `0x` or `0X`
followed by `h`, on every upper/lower-case variant `h'` of `h` in place of `h`,
and on any of these surrounded by white space; `0x88B5` and `88b5` both give
0x88B5. -/
theorem parseEtherType_accepts (h h' pre ws1 ws2 : QString) (hh : QString.isHex h = true)
    (hv : hexValue h ≤ 0xFFFF) (hcase : QString.isCaseVariant h h' = true)
    (hpre : pre = [] ∨ pre = "0x".toList ∨ pre = "0X".toList)
    (h1 : QString.isSpaces ws1 = true) (h2 : QString.isSpaces ws2 = true) :
    parseEtherType (ws1 ++ pre ++ h ++ ws2) = some (hexValue h) ∧
      parseEtherType (pre ++ h) = some (hexValue h) ∧
      parseEtherType (ws1 ++ pre ++ h' ++ ws2) = some (hexValue h) ∧
      parseEtherType (pre ++ h') = some (hexValue h) ∧
      parseEtherType "0x88B5".toList = some 0x88B5 ∧
      parseEtherType "88b5".toList = some 0x88B5 := by
  have hm := isCaseVariant_hexDigits h h' hcase (isHex_mem h hh)
  have hh' : QString.isHex h' = true := by rw [isHex_eq_of_map h h' hm, hh]
  have hval : hexValue h' = hexValue h := hexValue_eq_of_map h h' hm
  have a1 := parseEtherType_isHex h pre ws1 ws2 hh hv hpre h1 h2
  have a2 := parseEtherType_isHex h pre [] [] hh hv hpre rfl rfl
  have a3 := parseEtherType_isHex h' pre ws1 ws2 hh' (by omega) hpre h1 h2
  have a4 := parseEtherType_isHex h' pre [] [] hh' (by omega) hpre rfl rfl
  rw [List.nil_append, List.append_nil] at a2 a4
  rw [hval] at a3 a4
  exact ⟨a1, a2, a3, a4, by decide, by decide⟩

/-- C7 at the digits "88b5", their variant "88B5", the prefix "0X" and white space
around. -/
theorem parseEtherType_accepts_witness :
    parseEtherType " \t0X88b5\n".toList = some 0x88B5 ∧
      parseEtherType " \t0X88B5\n".toList = some 0x88B5 :=
  have h := parseEtherType_accepts "88b5".toList "88B5".toList "0X".toList " \t".toList
    "\n".toList (by decide) (by decide) (by decide) (by decide) (by decide) (by decide)
  ⟨h.1, h.2.2.1⟩

/-- The prefix test and `mid(2)` of the source strip one leading `0x` or `0X`. -/
theorem stripRadixMarker_eq (s : QString) :
    (if QString.startsWith0x s then QString.mid s 2 else s) = stripRadixMarker s := by
  generalize hr : (if QString.startsWith0x s then QString.mid s 2 else s) = rhs
  unfold stripRadixMarker
  split
  · exact hr.symm
  · exact hr.symm
  · rename_i h1 h2
    have : QString.startsWith0x s = false := by
      match s, h1, h2 with
      | [], _, _ => rfl
      | [_], _, _ => rfl
      | c :: d :: r, h1, h2 =>
        unfold QString.startsWith0x
        by_cases hc : c = '0'
        · subst hc
          have hx : d ≠ 'x' := fun h => h1 r (by rw [h])
          have hX : d ≠ 'X' := fun h => h2 r (by rw [h])
          simp [hx, hX]
        · simp [hc]
    rw [this] at hr
    exact hr.symm

/-- The function `toUInt(&ok, 16)` fails on a text of digits whose value does not fit a
`uint`. -/
theorem toUInt16_isHex_overflow (h : QString) (hh : QString.isHex h = true)
    (hv : 4294967295 < hexValue h) : QString.toUInt16 h = none := by
  unfold QString.toUInt16
  rw [trimmed_eq_self _ (isHex_no_space h hh), signedMagnitude_isHex h hh]
  dsimp only
  simp only [Bool.false_eq_true, if_false]
  rw [if_neg (by omega)]

/-- C8: `parseEtherType` fails exactly when the text, trimmed and with one leading
`0x` (in either case) stripped, is not converted by `toUInt(&ok, 16)` or
converts to a value above 0xFFFF; when it succeeds the result is the converted
value itself, at most 0xFFFF, with no truncation to 16 bits.  On a remaining
text of digits this means failure exactly when the value exceeds 0xFFFF.
"1FFFF", "10000", the empty text and "0x" fail; "FFFF" gives 0xFFFF. -/
theorem parseEtherType_fails_iff (s : QString) :
    (parseEtherType s = none ↔
        (QString.toUInt16 (stripRadixMarker (QString.trimmed s)) = none ∨
          ∃ v, QString.toUInt16 (stripRadixMarker (QString.trimmed s)) = some v ∧
            0xFFFF < v)) ∧
      (∀ v, parseEtherType s = some v ↔
        (QString.toUInt16 (stripRadixMarker (QString.trimmed s)) = some v ∧ v ≤ 0xFFFF)) ∧
      (QString.isHex (stripRadixMarker (QString.trimmed s)) = true →
        (parseEtherType s = none ↔
          0xFFFF < hexValue (stripRadixMarker (QString.trimmed s)))) ∧
      parseEtherType "1FFFF".toList = none ∧
      parseEtherType "10000".toList = none ∧
      parseEtherType [] = none ∧
      parseEtherType "0x".toList = none ∧
      parseEtherType "FFFF".toList = some 0xFFFF := by
  have hdef : parseEtherType s =
      match QString.toUInt16 (stripRadixMarker (QString.trimmed s)) with
      | none => none
      | some v => if v > 0xFFFF then none else some (v % 65536) := by
    unfold parseEtherType
    dsimp only
    rw [stripRadixMarker_eq]
  have hiff : parseEtherType s = none ↔
      (QString.toUInt16 (stripRadixMarker (QString.trimmed s)) = none ∨
        ∃ v, QString.toUInt16 (stripRadixMarker (QString.trimmed s)) = some v ∧
          0xFFFF < v) := by
    rw [hdef]
    cases QString.toUInt16 (stripRadixMarker (QString.trimmed s)) with
    | none => simp
    | some v =>
      dsimp only
      by_cases hv : v > 0xFFFF
      · rw [if_pos hv]
        simpa using hv
      · rw [if_neg hv]
        simpa using hv
  refine ⟨hiff, ?_, ?_, by decide, by decide, by decide, by decide, by decide⟩
  · intro v
    rw [hdef]
    cases QString.toUInt16 (stripRadixMarker (QString.trimmed s)) with
    | none => simp
    | some u =>
      dsimp only
      by_cases hu : u > 0xFFFF
      · rw [if_pos hu]
        constructor
        · intro h
          exact absurd h (by simp)
        · rintro ⟨h, hle⟩
          have := Option.some.inj h
          omega
      · rw [if_neg hu, Nat.mod_eq_of_lt (by omega)]
        constructor
        · intro h
          have := Option.some.inj h
          exact ⟨h, by omega⟩
        · exact fun h => h.1
  · intro hh
    rw [hiff]
    by_cases hbig : hexValue (stripRadixMarker (QString.trimmed s)) ≤ 4294967295
    · rw [toUInt16_isHex _ hh hbig]
      simp
    · rw [toUInt16_isHex_overflow _ hh (by omega)]
      simp
      omega

/-- C8 at the text "0x1FFFF": the remaining digits have a value above 0xFFFF. -/
theorem parseEtherType_fails_iff_witness : parseEtherType "0x1FFFF".toList = none :=
  ((parseEtherType_fails_iff "0x1FFFF".toList).2.2.1 (by decide)).2 (by decide)

/-! ## `parseHexPayload` -/

/-- The four `remove` calls of `parseHexPayload` keep the characters that are
none of space, tab, carriage return, line feed. -/
theorem remove_four (s : QString) :
    (((s.remove ' ').remove '\n').remove '\r').remove '\t' =
      s.filter (fun c => !QChar.isPayloadSpace c) := by
  unfold QString.remove
  rw [List.filter_filter, List.filter_filter, List.filter_filter]
  congr 1
  funext c
  unfold QChar.isPayloadSpace
  simp only [bne]
  cases (c == ' ') <;> cases (c == '\t') <;> cases (c == '\r') <;> cases (c == '\n') <;> rfl

/-- Removing the four characters from a run of them leaves nothing. -/
theorem filter_spaces_nil (w : QString) (hw : ∀ c ∈ w, QChar.isPayloadSpace c = true) :
    w.filter (fun c => !QChar.isPayloadSpace c) = [] := by
  rw [List.filter_eq_nil_iff]
  intro c hc
  simp [hw c hc]

/-- When all the white space of a text is among the four characters, trimming
first does not change what the removal leaves. -/
theorem filter_trimmed (t : QString)
    (ht : ∀ c ∈ t, QChar.isSpace c = true → QChar.isPayloadSpace c = true) :
    (QString.trimmed t).filter (fun c => !QChar.isPayloadSpace c) =
      t.filter (fun c => !QChar.isPayloadSpace c) := by
  obtain ⟨w1, w2, h1, h2, hs⟩ := trimmed_decomp t
  have hw1 : ∀ c ∈ w1, QChar.isPayloadSpace c = true := fun c hc =>
    ht c (by rw [hs]; simp [hc]) (List.all_eq_true.1 h1 c hc)
  have hw2 : ∀ c ∈ w2, QChar.isPayloadSpace c = true := fun c hc =>
    ht c (by rw [hs]; simp [hc]) (List.all_eq_true.1 h2 c hc)
  conv_rhs => rw [hs]
  rw [List.filter_append, List.filter_append, filter_spaces_nil w1 hw1,
    filter_spaces_nil w2 hw2, List.nil_append, List.append_nil]

/-- Two base-16 digits convert to their value, a byte. -/
theorem toInt16_pair (a b : Char) (ha : (QChar.hexDigit a).isSome = true)
    (hb : (QChar.hexDigit b).isSome = true) :
    QString.toInt16 [a, b] = some (hexValue [a, b] : Int) ∧ hexValue [a, b] ≤ 255 := by
  obtain ⟨da, hda⟩ := Option.isSome_iff_exists.1 ha
  obtain ⟨db, hdb⟩ := Option.isSome_iff_exists.1 hb
  have h1 := (hexDigit_cases a da hda).1
  have h2 := (hexDigit_cases b db hdb).1
  have hval : hexValue [a, b] = (0 * 16 + da) * 16 + db := by
    unfold hexValue
    rw [List.foldl_cons, List.foldl_cons, List.foldl_nil, hda, hdb]
    rfl
  have hle : hexValue [a, b] ≤ 255 := by omega
  have hhex : QString.isHex [a, b] = true := by
    unfold QString.isHex
    simp [ha, hb]
  exact ⟨toInt16_isHex _ hhex (by omega), hle⟩

/-- The loop of `parseHexPayload` at the end of the text. -/
theorem parseHexPayloadLoop_nil (out : QByteArray) :
    parseHexPayloadLoop [] out = (out, true) := rfl

/-- The loop of `parseHexPayload` with at least two characters left. -/
theorem parseHexPayloadLoop_cons (a b : Char) (rest : QString) (out : QByteArray) :
    parseHexPayloadLoop (a :: b :: rest) out =
      match QString.toInt16 [a, b] with
      | none => ([], false)
      | some v => parseHexPayloadLoop rest (out ++ [toChar v]) := rfl

/-- The loop of `parseHexPayload` on an even number of digits appends the value
of each pair. -/
theorem parseHexPayloadLoop_isHex (n : Nat) (h : QString) (out : QByteArray)
    (hlen : h.length = 2 * n) (hh : ∀ c ∈ h, (QChar.hexDigit c).isSome = true) :
    parseHexPayloadLoop h out = (out ++ hexPairs h, true) := by
  induction n generalizing h out with
  | zero =>
    have : h = [] := List.length_eq_zero.1 (by omega)
    subst this
    rw [parseHexPayloadLoop_nil]
    simp [hexPairs]
  | succ n ih =>
    match h, hlen, hh with
    | a :: b :: rest, hlen, hh =>
      have hp := toInt16_pair a b (hh a (by simp)) (hh b (by simp))
      have hrest : rest.length = 2 * n := by
        simp only [List.length_cons] at hlen
        omega
      rw [parseHexPayloadLoop_cons, hp.1]
      dsimp only
      rw [toChar_natCast _ hp.2, ih rest _ hrest (fun c hc => hh c (by simp [hc]))]
      simp [hexPairs]

/-- There is one byte for each pair of characters. -/
theorem hexPairs_length (n : Nat) (h : QString) (hlen : h.length = 2 * n) :
    (hexPairs h).length = n := by
  induction n generalizing h with
  | zero =>
    have : h = [] := List.length_eq_zero.1 (by omega)
    subst this
    rfl
  | succ n ih =>
    match h, hlen with
    | a :: b :: rest, hlen =>
      have hrest : rest.length = 2 * n := by
        simp only [List.length_cons] at hlen
        omega
      simp [hexPairs, ih rest hrest]

/-- The `k`-th byte is the value of the `k`-th pair of characters. -/
theorem hexPairs_getElem (k : Nat) (h : QString) (hk : 2 * k + 1 < h.length) :
    (hexPairs h)[k]? = some (hexValue ((h.drop (2 * k)).take 2)) := by
  induction k generalizing h with
  | zero =>
    match h, hk with
    | a :: b :: rest, _ => simp [hexPairs]
  | succ k ih =>
    match h, hk with
    | a :: b :: rest, hk =>
      have hrest : 2 * k + 1 < rest.length := by
        simp only [List.length_cons] at hk
        omega
      have h2 : 2 * (k + 1) = 2 * k + 1 + 1 := by ring
      rw [h2]
      simp only [hexPairs, List.getElem?_cons_succ, List.drop_succ_cons]
      exact ih rest hrest

/-- C9: for every even-length text `h` of base-16 digits and every text `t`
obtained from `h` by inserting spaces, tabs, carriage returns and line feeds
at any positions (the text `t` without these four characters is `h`),
`parseHexPayload t` succeeds and returns `length h / 2` bytes, the `k`-th being
the base-16 value of the `k`-th digit pair of `h`; "AA BB", a line feed and "CC"
give AA BB CC. -/
theorem parseHexPayload_accepts (h t : QString)
    (hh : ∀ c ∈ h, (QChar.hexDigit c).isSome = true) (heven : h.length % 2 = 0)
    (ht : t.filter (fun c => !QChar.isPayloadSpace c) = h) :
    parseHexPayload t = (hexPairs h, true) ∧
      (hexPairs h).length = h.length / 2 ∧
      (∀ k, k < h.length / 2 →
        (hexPairs h)[k]? = some (hexValue ((h.drop (2 * k)).take 2))) ∧
      parseHexPayload "AA BB\nCC".toList = ([0xAA, 0xBB, 0xCC], true) := by
  have hlen : h.length = 2 * (h.length / 2) := by omega
  have hsp : ∀ c ∈ t, QChar.isSpace c = true → QChar.isPayloadSpace c = true := by
    intro c hc hs
    by_contra hps
    have hmem : c ∈ h := by
      rw [← ht]
      exact List.mem_filter.2 ⟨hc, by simp [hps]⟩
    obtain ⟨d, hd⟩ := Option.isSome_iff_exists.1 (hh c hmem)
    have := (hexDigit_cases c d hd).2.1
    rw [hs] at this
    exact absurd this (by simp)
  refine ⟨?_, hexPairs_length _ h hlen, fun k hk => hexPairs_getElem k h (by omega),
    by decide⟩
  unfold parseHexPayload
  dsimp only
  rw [remove_four, filter_trimmed t hsp, ht, if_neg (by omega),
    parseHexPayloadLoop_isHex _ h [] hlen hh]
  rfl

/-- C9 at the digits "AABBCC" with a space, a tab, a carriage return and a line
feed inserted, one of them inside a pair. -/
theorem parseHexPayload_accepts_witness :
    parseHexPayload " A\tABB\r\nCC ".toList = ([0xAA, 0xBB, 0xCC], true) :=
  (parseHexPayload_accepts "AABBCC".toList " A\tABB\r\nCC ".toList (by decide) (by decide)
    (by decide)).1

/-- C10, at the failing inputs: a pair holding a sign is converted by
`toInt(&ok, 16)`, so `parseHexPayload` succeeds on "-1" with the byte 0xFF, on
"+A" with the byte 0x0A and on "AB-1" with the bytes AB FF, where the claim
has it fail. -/
theorem parseHexPayload_sign_pair :
    parseHexPayload "-1".toList = ([0xFF], true) ∧
      parseHexPayload "+A".toList = ([0x0A], true) ∧
      parseHexPayload "AB-1".toList = ([0xAB, 0xFF], true) := by
  decide

/-! ## The runs of `sendFrame` (claims C11 to C13, C17 to C19) -/

/-- Every run of `sendFrame` is one of nine: one of the six rejections, in the
order of the checks, each logging a single line; or, with every check passed
and the frame built, a failed open, a failed send or a successful send. -/
theorem sendFrame_cases (pcap : Pcap) (ui : Form) :
    (ui.comboAdapter = [] ∧
        sendFrame pcap ui = [Event.log "No adapter selected.".toList]) ∨
      (ui.comboAdapter ≠ [] ∧ (parseMac ui.editDstMac).2 = false ∧
        sendFrame pcap ui = [Event.log "Invalid Dst MAC.".toList]) ∨
      (ui.comboAdapter ≠ [] ∧ (parseMac ui.editDstMac).2 = true ∧
        (parseMac ui.editSrcMac).2 = false ∧
        sendFrame pcap ui = [Event.log "Invalid Src MAC.".toList]) ∨
      (ui.comboAdapter ≠ [] ∧ (parseMac ui.editDstMac).2 = true ∧
        (parseMac ui.editSrcMac).2 = true ∧ parseEtherType ui.editEtherType = none ∧
        sendFrame pcap ui = [Event.log "Invalid EtherType.".toList]) ∨
      (ui.comboAdapter ≠ [] ∧ (parseMac ui.editDstMac).2 = true ∧
        (parseMac ui.editSrcMac).2 = true ∧
        (∃ e, parseEtherType ui.editEtherType = some e) ∧ readPayload ui = none ∧
        sendFrame pcap ui = [Event.log "Invalid HEX payload.".toList]) ∨
      (ui.comboAdapter ≠ [] ∧ (parseMac ui.editDstMac).2 = true ∧
        (parseMac ui.editSrcMac).2 = true ∧
        (∃ e p, parseEtherType ui.editEtherType = some e ∧ readPayload ui = some p ∧
          1500 < p.length) ∧
        sendFrame pcap ui = [Event.log msgPayloadTooLarge]) ∨
      (ui.comboAdapter ≠ [] ∧ (parseMac ui.editDstMac).2 = true ∧
        (parseMac ui.editSrcMac).2 = true ∧
        ∃ e p frame device, parseEtherType ui.editEtherType = some e ∧
          readPayload ui = some p ∧ p.length ≤ 1500 ∧
          buildFrame (parseMac ui.editDstMac).1 (parseMac ui.editSrcMac).1 e p = some frame ∧
          device = (QString.toUtf8 ui.comboAdapter).takeWhile (fun b => b != 0) ∧
          ((∃ errbuf, pcap.open_live device = Except.error errbuf ∧
              sendFrame pcap ui =
                [Event.pcap_open_live device 65536 1 1000,
                  Event.log ("pcap_open_live failed: ".toList ++ errbuf)]) ∨
            (∃ handle, pcap.open_live device = Except.ok handle ∧
              pcap.sendpacket handle frame ≠ 0 ∧
              sendFrame pcap ui =
                [Event.pcap_open_live device 65536 1 1000,
                  Event.pcap_sendpacket handle frame frame.length,
                  Event.pcap_geterr handle,
                  Event.log ("pcap_sendpacket failed: ".toList ++ pcap.geterr handle),
                  Event.pcap_close handle]) ∨
            (∃ handle, pcap.open_live device = Except.ok handle ∧
              pcap.sendpacket handle frame = 0 ∧
              sendFrame pcap ui =
                [Event.pcap_open_live device 65536 1 1000,
                  Event.pcap_sendpacket handle frame frame.length,
                  Event.log ("Sent OK. Bytes=".toList ++ QString.number frame.length ++
                    " EtherType=0x".toList ++ QString.numberHexUpper e),
                  Event.pcap_close handle]))) := by
  by_cases ha : ui.comboAdapter = []
  · refine Or.inl ⟨ha, ?_⟩
    unfold sendFrame
    simp [ha]
  have hne : ui.comboAdapter.isEmpty = false := by
    cases h : ui.comboAdapter with
    | nil => exact absurd h ha
    | cons _ _ => rfl
  refine Or.inr ?_
  cases hd : (parseMac ui.editDstMac).2 with
  | false =>
    refine Or.inl ⟨ha, rfl, ?_⟩
    unfold sendFrame
    simp [hne, hd]
  | true =>
    refine Or.inr ?_
    cases hs : (parseMac ui.editSrcMac).2 with
    | false =>
      refine Or.inl ⟨ha, rfl, rfl, ?_⟩
      unfold sendFrame
      simp [hne, hd, hs]
    | true =>
      refine Or.inr ?_
      cases he : parseEtherType ui.editEtherType with
      | none =>
        refine Or.inl ⟨ha, rfl, rfl, rfl, ?_⟩
        unfold sendFrame
        simp [hne, hd, hs, he]
      | some e =>
        refine Or.inr ?_
        cases hp : readPayload ui with
        | none =>
          refine Or.inl ⟨ha, rfl, rfl, ⟨e, rfl⟩, rfl, ?_⟩
          unfold sendFrame
          simp [hne, hd, hs, he, hp]
        | some p =>
          refine Or.inr ?_
          have hsend := sendFrame_of_fields pcap ui (parseMac ui.editDstMac).1
            (parseMac ui.editSrcMac).1 e p ha (by rw [← hd]) (by rw [← hs]) he hp
          by_cases hlen : 1500 < p.length
          · refine Or.inl ⟨ha, rfl, rfl, ⟨e, p, rfl, rfl, hlen⟩, ?_⟩
            rw [hsend, buildFrame_eq, if_pos hlen]
          · refine Or.inr ⟨ha, rfl, rfl, e, p, _, _, rfl, rfl, by omega,
              by rw [buildFrame_eq, if_neg hlen], rfl, ?_⟩
            rw [hsend, buildFrame_eq, if_neg hlen]
            dsimp only
            cases hopen : pcap.open_live
                ((QString.toUtf8 ui.comboAdapter).takeWhile (fun b => b != 0)) with
            | error errbuf => exact Or.inl ⟨errbuf, rfl, rfl⟩
            | ok handle =>
              refine Or.inr ?_
              dsimp only
              by_cases hrc : pcap.sendpacket handle
                  ((parseMac ui.editDstMac).1 ++ (parseMac ui.editSrcMac).1 ++
                    [(e >>> 8) &&& 0xFF] ++ [e &&& 0xFF] ++ p ++
                    List.replicate (46 - p.length) 0) = 0
              · refine Or.inr ⟨handle, rfl, hrc, ?_⟩
                rw [if_neg (not_not.2 hrc)]
                rfl
              · refine Or.inl ⟨handle, rfl, hrc, ?_⟩
                rw [if_pos hrc]
                rfl

/-- The payload is refused only in hex mode, when `parseHexPayload` reports
failure. -/
theorem readPayload_eq_none_iff (ui : Form) :
    readPayload ui = none ↔ (ui.checkHex = true ∧ (parseHexPayload ui.editPayload).2 = false) := by
  unfold readPayload
  cases hc : ui.checkHex
  · simp
  · cases hp : (parseHexPayload ui.editPayload).2 <;> simp [hp]

/-- C11: with an adapter selected, `sendFrame` reports the first failing check
in the order destination MAC, source MAC, EtherType, hex payload, payload
size.  An invalid destination MAC is logged as "Invalid Dst MAC." whatever
the other fields hold; "Invalid Src MAC." is logged exactly when the
destination parses and the source does not; "Invalid EtherType." exactly when
both addresses parse and the EtherType does not; "Invalid HEX payload."
exactly when the three header fields parse, the hex box is checked and the
payload text is refused; the size error exactly when every field parses and
the payload exceeds 1500 bytes.  A failing check makes its line the only
event, and every run logs exactly one line. -/
theorem sendFrame_first_failure (pcap : Pcap) (ui : Form) (ha : ui.comboAdapter ≠ []) :
    ((parseMac ui.editDstMac).2 = false →
        sendFrame pcap ui = [Event.log "Invalid Dst MAC.".toList]) ∧
      (Event.log "Invalid Dst MAC.".toList ∈ sendFrame pcap ui ↔
        (parseMac ui.editDstMac).2 = false) ∧
      (Event.log "Invalid Src MAC.".toList ∈ sendFrame pcap ui ↔
        ((parseMac ui.editDstMac).2 = true ∧ (parseMac ui.editSrcMac).2 = false)) ∧
      (Event.log "Invalid EtherType.".toList ∈ sendFrame pcap ui ↔
        ((parseMac ui.editDstMac).2 = true ∧ (parseMac ui.editSrcMac).2 = true ∧
          parseEtherType ui.editEtherType = none)) ∧
      (Event.log "Invalid HEX payload.".toList ∈ sendFrame pcap ui ↔
        ((parseMac ui.editDstMac).2 = true ∧ (parseMac ui.editSrcMac).2 = true ∧
          (parseEtherType ui.editEtherType).isSome = true ∧ ui.checkHex = true ∧
          (parseHexPayload ui.editPayload).2 = false)) ∧
      (Event.log msgPayloadTooLarge ∈ sendFrame pcap ui ↔
        ((parseMac ui.editDstMac).2 = true ∧ (parseMac ui.editSrcMac).2 = true ∧
          (parseEtherType ui.editEtherType).isSome = true ∧
          ∃ p, readPayload ui = some p ∧ 1500 < p.length)) ∧
      (((parseMac ui.editDstMac).2 = false ∨ (parseMac ui.editSrcMac).2 = false ∨
          parseEtherType ui.editEtherType = none ∨ readPayload ui = none ∨
          ∃ p, readPayload ui = some p ∧ 1500 < p.length) →
        ∃ line, sendFrame pcap ui = [Event.log line]) ∧
      ((sendFrame pcap ui).filter Event.isLog).length = 1 := by
  have hmsg : msgPayloadTooLarge = "Payload > 1500 not allowed.".toList := rfl
  rcases sendFrame_cases pcap ui with
    ⟨h0, -⟩ | ⟨-, hd, htr⟩ | ⟨-, hd, hs, htr⟩ | ⟨-, hd, hs, he, htr⟩ |
    ⟨-, hd, hs, ⟨e, he⟩, hp, htr⟩ | ⟨-, hd, hs, ⟨e, p, he, hp, hlen⟩, htr⟩ |
    ⟨-, hd, hs, e, p, frame, device, he, hp, hlen, hf, -, hrun⟩
  · exact absurd h0 ha
  · rw [htr]
    simp [hd, hmsg, Event.isLog]
  · rw [htr]
    simp [hd, hs, hmsg, Event.isLog]
  · rw [htr]
    simp [hd, hs, he, hmsg, Event.isLog]
  · have hp' := (readPayload_eq_none_iff ui).1 hp
    rw [htr]
    simp [hd, hs, he, hp, hp'.1, hp'.2, hmsg, Event.isLog]
  · have hp' : ¬ (ui.checkHex = true ∧ (parseHexPayload ui.editPayload).2 = false) := by
      rw [← readPayload_eq_none_iff, hp]
      simp
    rw [htr]
    simp [hd, hs, he, hp, hlen, hmsg, Event.isLog]
    simpa using hp'
  · have hp' : ¬ (ui.checkHex = true ∧ (parseHexPayload ui.editPayload).2 = false) := by
      rw [← readPayload_eq_none_iff, hp]
      simp
    have hp'' : ui.checkHex = true → (parseHexPayload ui.editPayload).2 = true := by
      simpa using hp'
    have hlen' : ¬ 1500 < p.length := by omega
    rcases hrun with ⟨errbuf, -, htr⟩ | ⟨handle, -, -, htr⟩ | ⟨handle, -, -, htr⟩
    · rw [htr]
      simp [hd, hs, he, hp, hlen', Event.isLog, msgPayloadTooLarge]
      exact hp''
    · rw [htr]
      simp [hd, hs, he, hp, hlen', Event.isLog, msgPayloadTooLarge]
      exact hp''
    · rw [htr]
      simp [hd, hs, he, hp, hlen', Event.isLog, msgPayloadTooLarge]
      exact hp''

/-- C11 at a form whose destination parses and whose source does not, the other
fields being invalid too: the source is what is reported. -/
theorem sendFrame_first_failure_witness :
    Event.log "Invalid Src MAC.".toList ∈
      sendFrame ⟨fun _ => Except.ok 0, fun _ _ => 0, fun _ => []⟩
        ⟨"eth0".toList, "AA:BB:CC:DD:EE:FF".toList, "GG:22:33:44:55:66".toList,
          "zz".toList, "ABC".toList, true⟩ :=
  (sendFrame_first_failure ⟨fun _ => Except.ok 0, fun _ _ => 0, fun _ => []⟩
    ⟨"eth0".toList, "AA:BB:CC:DD:EE:FF".toList, "GG:22:33:44:55:66".toList,
      "zz".toList, "ABC".toList, true⟩ (by decide)).2.2.1.2 ⟨by decide, by decide⟩

/-- C12: no partial frame is ever sent.  If `sendFrame` calls the open or the
send primitive, then the adapter identifier is not empty, both MAC texts and
the EtherType text parse, the payload parses (in hex mode) and has at most
1500 bytes; if any of these checks fails neither primitive is called; and the
bytes handed to the send primitive are always a complete built frame. -/
theorem sendFrame_no_partial_frame (pcap : Pcap) (ui : Form) :
    ((∃ ev ∈ sendFrame pcap ui, ev.isOpen = true ∨ ev.isSend = true) →
        ui.comboAdapter ≠ [] ∧ (parseMac ui.editDstMac).2 = true ∧
          (parseMac ui.editSrcMac).2 = true ∧
          (parseEtherType ui.editEtherType).isSome = true ∧
          (ui.checkHex = true → (parseHexPayload ui.editPayload).2 = true) ∧
          ∃ p, readPayload ui = some p ∧ p.length ≤ 1500) ∧
      ((ui.comboAdapter = [] ∨ (parseMac ui.editDstMac).2 = false ∨
          (parseMac ui.editSrcMac).2 = false ∨ parseEtherType ui.editEtherType = none ∨
          (ui.checkHex = true ∧ (parseHexPayload ui.editPayload).2 = false) ∨
          (∃ p, readPayload ui = some p ∧ 1500 < p.length)) →
        ∀ ev ∈ sendFrame pcap ui, ev.isOpen = false ∧ ev.isSend = false) ∧
      (∀ handle buf size, Event.pcap_sendpacket handle buf size ∈ sendFrame pcap ui →
        ∃ e p, parseEtherType ui.editEtherType = some e ∧ readPayload ui = some p ∧
          buildFrame (parseMac ui.editDstMac).1 (parseMac ui.editSrcMac).1 e p = some buf ∧
          size = buf.length) := by
  rcases sendFrame_cases pcap ui with
    ⟨h0, htr⟩ | ⟨-, hd, htr⟩ | ⟨-, hd, hs, htr⟩ | ⟨-, hd, hs, he, htr⟩ |
    ⟨-, hd, hs, ⟨e, he⟩, hp, htr⟩ | ⟨-, hd, hs, ⟨e, p, he, hp, hlen⟩, htr⟩ |
    ⟨ha, hd, hs, e, p, frame, device, he, hp, hlen, hf, -, hrun⟩
  · rw [htr]
    simp [Event.isOpen, Event.isSend]
  · rw [htr]
    simp [Event.isOpen, Event.isSend]
  · rw [htr]
    simp [Event.isOpen, Event.isSend]
  · rw [htr]
    simp [Event.isOpen, Event.isSend]
  · rw [htr]
    simp [Event.isOpen, Event.isSend]
  · rw [htr]
    simp [Event.isOpen, Event.isSend]
  · have hp' : ¬ (ui.checkHex = true ∧ (parseHexPayload ui.editPayload).2 = false) := by
      rw [← readPayload_eq_none_iff, hp]
      simp
    have hp'' : ui.checkHex = true → (parseHexPayload ui.editPayload).2 = true := by
      simpa using hp'
    have hbad : ¬ (ui.comboAdapter = [] ∨ (parseMac ui.editDstMac).2 = false ∨
        (parseMac ui.editSrcMac).2 = false ∨ parseEtherType ui.editEtherType = none ∨
        (ui.checkHex = true ∧ (parseHexPayload ui.editPayload).2 = false) ∨
        (∃ p, readPayload ui = some p ∧ 1500 < p.length)) := by
      rintro (h | h | h | h | h | ⟨q, hq, hql⟩)
      · exact ha h
      · rw [hd] at h
        exact absurd h (by simp)
      · rw [hs] at h
        exact absurd h (by simp)
      · rw [he] at h
        exact absurd h (by simp)
      · exact hp' h
      · rw [hp] at hq
        have hpq := Option.some.inj hq
        rw [← hpq] at hql
        omega
    refine ⟨fun _ => ⟨ha, hd, hs, by rw [he]; rfl, hp'', p, hp, hlen⟩,
      fun h => absurd h hbad, ?_⟩
    intro handle buf size hmem
    refine ⟨e, p, he, hp, ?_⟩
    rcases hrun with ⟨errbuf, -, htr⟩ | ⟨h', -, -, htr⟩ | ⟨h', -, -, htr⟩
    · rw [htr] at hmem
      simp at hmem
    · rw [htr] at hmem
      simp at hmem
      obtain ⟨-, rfl, rfl⟩ := hmem
      exact ⟨hf, rfl⟩
    · rw [htr] at hmem
      simp at hmem
      obtain ⟨-, rfl, rfl⟩ := hmem
      exact ⟨hf, rfl⟩

/-- C12 at a form whose EtherType text does not parse: no event of the run is a
call of the open or of the send primitive. -/
theorem sendFrame_no_partial_frame_witness :
    ∀ ev ∈ sendFrame ⟨fun _ => Except.ok 0, fun _ _ => 0, fun _ => []⟩
        ⟨"eth0".toList, "AA:BB:CC:DD:EE:FF".toList, "11:22:33:44:55:66".toList,
          "1FFFF".toList, "DEAD".toList, true⟩,
      ev.isOpen = false ∧ ev.isSend = false :=
  (sendFrame_no_partial_frame ⟨fun _ => Except.ok 0, fun _ _ => 0, fun _ => []⟩
    ⟨"eth0".toList, "AA:BB:CC:DD:EE:FF".toList, "11:22:33:44:55:66".toList,
      "1FFFF".toList, "DEAD".toList, true⟩).2.1
    (Or.inr (Or.inr (Or.inr (Or.inl (by decide)))))

/-- A parsed EtherType fits 16 bits. -/
theorem parseEtherType_lt (s : QString) (e : Nat) (h : parseEtherType s = some e) :
    e < 65536 := by
  unfold parseEtherType at h
  dsimp only at h
  cases hv : QString.toUInt16
      (if QString.startsWith0x (QString.trimmed s) then QString.mid (QString.trimmed s) 2
        else QString.trimmed s) with
  | none =>
    rw [hv] at h
    exact absurd h (by simp)
  | some v =>
    rw [hv] at h
    dsimp only at h
    by_cases hbig : v > 0xFFFF
    · rw [if_pos hbig] at h
      exact absurd h (by simp)
    · rw [if_neg hbig] at h
      have := Option.some.inj h
      omega

/-- With every field accepted, the frame built and the adapter opened, the run
is the open, the send of exactly the built frame, the report and the close. -/
theorem sendFrame_transmits (pcap : Pcap) (ui : Form) (dst src : QByteArray) (e : Nat)
    (p frame : QByteArray) (handle : Nat) (ha : ui.comboAdapter ≠ [])
    (hd : parseMac ui.editDstMac = (dst, true)) (hs : parseMac ui.editSrcMac = (src, true))
    (he : parseEtherType ui.editEtherType = some e) (hp : readPayload ui = some p)
    (hf : buildFrame dst src e p = some frame)
    (hopen : pcap.open_live ((QString.toUtf8 ui.comboAdapter).takeWhile (fun b => b != 0)) =
      Except.ok handle) :
    sendFrame pcap ui =
      [Event.pcap_open_live ((QString.toUtf8 ui.comboAdapter).takeWhile (fun b => b != 0))
          65536 1 1000,
        Event.pcap_sendpacket handle frame frame.length] ++
      (if pcap.sendpacket handle frame ≠ 0 then
          [Event.pcap_geterr handle,
            Event.log ("pcap_sendpacket failed: ".toList ++ pcap.geterr handle)]
        else
          [Event.log ("Sent OK. Bytes=".toList ++ QString.number frame.length ++
            " EtherType=0x".toList ++ QString.numberHexUpper e)]) ++
      [Event.pcap_close handle] := by
  rw [sendFrame_of_fields pcap ui dst src e p ha hd hs he hp, hf]
  dsimp only
  rw [hopen]
  rfl

/-- With every field accepted, the frame built and the adapter opened: the only
bytes handed to the send primitive are the built frame with its length, and
the success line is logged exactly when the send primitive returns 0. -/
theorem sendFrame_report (pcap : Pcap) (ui : Form) (dst src : QByteArray) (e : Nat)
    (p frame : QByteArray) (handle : Nat) (ha : ui.comboAdapter ≠ [])
    (hd : parseMac ui.editDstMac = (dst, true)) (hs : parseMac ui.editSrcMac = (src, true))
    (he : parseEtherType ui.editEtherType = some e) (hp : readPayload ui = some p)
    (hf : buildFrame dst src e p = some frame)
    (hopen : pcap.open_live ((QString.toUtf8 ui.comboAdapter).takeWhile (fun b => b != 0)) =
      Except.ok handle) :
    (∀ h buf size, Event.pcap_sendpacket h buf size ∈ sendFrame pcap ui ↔
        (h = handle ∧ buf = frame ∧ size = frame.length)) ∧
      (Event.log ("Sent OK. Bytes=".toList ++ QString.number frame.length ++
          " EtherType=0x".toList ++ QString.numberHexUpper e) ∈ sendFrame pcap ui ↔
        pcap.sendpacket handle frame = 0) ∧
      ((∃ t, Event.log ("Sent OK. Bytes=".toList ++ t) ∈ sendFrame pcap ui) ↔
        pcap.sendpacket handle frame = 0) := by
  rw [sendFrame_transmits pcap ui dst src e p frame handle ha hd hs he hp hf hopen]
  by_cases hrc : pcap.sendpacket handle frame = 0
  · rw [if_neg (not_not.2 hrc)]
    refine ⟨?_, ?_, ?_⟩
    · intro h buf size
      simp
    · simp [hrc]
    · simp only [hrc, iff_true]
      exact ⟨QString.number frame.length ++ " EtherType=0x".toList ++
        QString.numberHexUpper e, by simp [List.append_assoc]⟩
  · rw [if_pos hrc]
    refine ⟨?_, ?_, ?_⟩
    · intro h buf size
      simp
    · simp [hrc]
    · simp [hrc]

/-- C13: end to end.  When all fields are valid and the adapter opens, the byte
sequence handed to the send primitive is exactly the built frame, with its
length, and `sendFrame` logs success, with the frame length as byte count and
the EtherType in upper-case base 16, if and only if the send primitive returns
0.  For AA:BB:CC:DD:EE:FF, 11:22:33:44:55:66, "0x88B5" and the hex payload
"DEAD" the bytes sent are the two addresses, 88 B5, DE AD and 44 zero bytes, and
the report is "Sent OK. Bytes=60 EtherType=0x88B5". -/
theorem sendFrame_end_to_end (pcap : Pcap) (ui : Form) (dst src : QByteArray) (e : Nat)
    (p frame : QByteArray) (handle : Nat) (ha : ui.comboAdapter ≠ [])
    (hd : parseMac ui.editDstMac = (dst, true)) (hs : parseMac ui.editSrcMac = (src, true))
    (he : parseEtherType ui.editEtherType = some e) (hp : readPayload ui = some p)
    (hf : buildFrame dst src e p = some frame)
    (hopen : pcap.open_live ((QString.toUtf8 ui.comboAdapter).takeWhile (fun b => b != 0)) =
      Except.ok handle) :
    (∀ h buf size, Event.pcap_sendpacket h buf size ∈ sendFrame pcap ui ↔
        (h = handle ∧ buf = frame ∧ size = frame.length)) ∧
      (Event.log ("Sent OK. Bytes=".toList ++ QString.number frame.length ++
          " EtherType=0x".toList ++ QString.numberHexUpper e) ∈ sendFrame pcap ui ↔
        pcap.sendpacket handle frame = 0) ∧
      ((∃ t, Event.log ("Sent OK. Bytes=".toList ++ t) ∈ sendFrame pcap ui) ↔
        pcap.sendpacket handle frame = 0) ∧
      (∀ (pcap' : Pcap) (handle' : Nat),
        pcap'.open_live [0x65, 0x74, 0x68, 0x30] = Except.ok handle' →
        (Event.pcap_sendpacket handle'
            ([0xAA, 0xBB, 0xCC, 0xDD, 0xEE, 0xFF, 0x11, 0x22, 0x33, 0x44, 0x55, 0x66,
              0x88, 0xB5, 0xDE, 0xAD] ++ List.replicate 44 0) 60 ∈
          sendFrame pcap' ⟨"eth0".toList, "AA:BB:CC:DD:EE:FF".toList,
            "11:22:33:44:55:66".toList, "0x88B5".toList, "DEAD".toList, true⟩) ∧
        (Event.log "Sent OK. Bytes=60 EtherType=0x88B5".toList ∈
            sendFrame pcap' ⟨"eth0".toList, "AA:BB:CC:DD:EE:FF".toList,
              "11:22:33:44:55:66".toList, "0x88B5".toList, "DEAD".toList, true⟩ ↔
          pcap'.sendpacket handle'
            ([0xAA, 0xBB, 0xCC, 0xDD, 0xEE, 0xFF, 0x11, 0x22, 0x33, 0x44, 0x55, 0x66,
              0x88, 0xB5, 0xDE, 0xAD] ++ List.replicate 44 0) = 0)) := by
  obtain ⟨h1, h2, h3⟩ :=
    sendFrame_report pcap ui dst src e p frame handle ha hd hs he hp hf hopen
  refine ⟨h1, h2, h3, ?_⟩
  intro pcap' handle' hopen'
  obtain ⟨g1, g2, -⟩ := sendFrame_report pcap'
    ⟨"eth0".toList, "AA:BB:CC:DD:EE:FF".toList, "11:22:33:44:55:66".toList,
      "0x88B5".toList, "DEAD".toList, true⟩
    [0xAA, 0xBB, 0xCC, 0xDD, 0xEE, 0xFF] [0x11, 0x22, 0x33, 0x44, 0x55, 0x66] 0x88B5
    [0xDE, 0xAD]
    ([0xAA, 0xBB, 0xCC, 0xDD, 0xEE, 0xFF, 0x11, 0x22, 0x33, 0x44, 0x55, 0x66,
      0x88, 0xB5, 0xDE, 0xAD] ++ List.replicate 44 0) handle'
    (by decide) (by decide) (by decide) (by decide) (by decide) (by decide) hopen'
  exact ⟨(g1 _ _ _).2 ⟨rfl, rfl, rfl⟩, g2⟩

/-- C13 at the example of the specification with primitives that open handle 7
and accept the frame: the whole run. -/
theorem sendFrame_end_to_end_witness :
    Event.pcap_sendpacket 7
        ([0xAA, 0xBB, 0xCC, 0xDD, 0xEE, 0xFF, 0x11, 0x22, 0x33, 0x44, 0x55, 0x66,
          0x88, 0xB5, 0xDE, 0xAD] ++ List.replicate 44 0) 60 ∈
      sendFrame ⟨fun _ => Except.ok 7, fun _ _ => 0, fun _ => []⟩
        ⟨"eth0".toList, "AA:BB:CC:DD:EE:FF".toList, "11:22:33:44:55:66".toList,
          "0x88B5".toList, "DEAD".toList, true⟩ :=
  ((sendFrame_end_to_end ⟨fun _ => Except.ok 7, fun _ _ => 0, fun _ => []⟩
    ⟨"eth0".toList, "AA:BB:CC:DD:EE:FF".toList, "11:22:33:44:55:66".toList,
      "0x88B5".toList, "DEAD".toList, true⟩
    [0xAA, 0xBB, 0xCC, 0xDD, 0xEE, 0xFF] [0x11, 0x22, 0x33, 0x44, 0x55, 0x66] 0x88B5
    [0xDE, 0xAD]
    ([0xAA, 0xBB, 0xCC, 0xDD, 0xEE, 0xFF, 0x11, 0x22, 0x33, 0x44, 0x55, 0x66,
      0x88, 0xB5, 0xDE, 0xAD] ++ List.replicate 44 0) 7
    (by decide) (by decide) (by decide) (by decide) (by decide) (by decide) rfl).1
    _ _ _).2 ⟨rfl, rfl, rfl⟩

/-! ## `refreshAdapters` (claims C14 to C16) -/

/-- The loop of `refreshAdapters` appends one item for each entry, in order, and
counts the entries. -/
theorem refreshAdaptersLoop_eq (ds : List PcapIf) (items : List ComboItem) (count : Nat) :
    refreshAdaptersLoop ds items count = (items ++ ds.map adapterItem, count + ds.length) := by
  induction ds generalizing items count with
  | nil => simp [refreshAdaptersLoop]
  | cons d ds ih =>
    rw [refreshAdaptersLoop, ih]
    simp only [List.map_cons, List.length_cons, List.append_assoc, List.singleton_append,
      Prod.mk.injEq, true_and]
    omega

/-- When `pcap_findalldevs` does not return -1, `refreshAdapters` leaves one item
for each entry, in order, and logs their number. -/
theorem refreshAdapters_ok (found : FindAllDevs) (combo : List ComboItem)
    (hrc : found.rc ≠ -1) :
    refreshAdapters found combo =
      (found.alldevs.map adapterItem,
        [Event.log ("Adapters refreshed. Found: ".toList ++
          QString.number found.alldevs.length)]) := by
  unfold refreshAdapters
  dsimp only
  rw [if_neg hrc, refreshAdaptersLoop_eq]
  simp [QComboBox.clear]

/-- C14, the counterexample: for an entry named "eth0" whose description is the
empty string, the description used is the empty string, not "No description",
and the item reads "  [eth0]". -/
theorem refreshAdapters_empty_description :
    adapterDesc ⟨some "eth0".toList, some []⟩ = [] ∧
      adapterDesc ⟨some "eth0".toList, some []⟩ ≠ "No description".toList ∧
      (refreshAdapters ⟨0, [⟨some "eth0".toList, some []⟩], []⟩ []).1 =
        [⟨"  [eth0]".toList, "eth0".toList⟩] ∧
      (refreshAdapters ⟨0, [⟨some "eth0".toList, some []⟩], []⟩ []).1 ≠
        [⟨"No description  [eth0]".toList, "eth0".toList⟩] := by
  decide

/-- C14 as amended: for every entry the listing primitive returns, the item
`refreshAdapters` makes of it has the entry's name as data (the empty string
when the name is a null pointer), and its text is the description, two spaces
and the name in brackets, where the description is "No description" when the
entry's description is a null pointer and the entry's own description
otherwise, the empty string included. -/
theorem refreshAdapters_item (found : FindAllDevs) (combo : List ComboItem) (i : Nat)
    (d : PcapIf) (hrc : found.rc ≠ -1) (hi : found.alldevs[i]? = some d) :
    (refreshAdapters found combo).1[i]? = some (adapterItem d) ∧
      (∀ n, d.name = some n → (adapterItem d).data = n) ∧
      (d.name = none → (adapterItem d).data = []) ∧
      (d.description = none →
        (adapterItem d).text =
          "No description".toList ++ "  [".toList ++ (adapterItem d).data ++ "]".toList) ∧
      (∀ t, d.description = some t →
        (adapterItem d).text = t ++ "  [".toList ++ (adapterItem d).data ++ "]".toList) ∧
      (d.description = some [] →
        (adapterItem d).text = "  [".toList ++ (adapterItem d).data ++ "]".toList) := by
  refine ⟨?_, ?_, ?_, ?_, ?_, ?_⟩
  · rw [refreshAdapters_ok found combo hrc]
    dsimp only
    rw [List.getElem?_map, hi]
    rfl
  · intro n hn
    simp [adapterItem, adapterName, hn]
  · intro hn
    simp [adapterItem, adapterName, hn]
  · intro hn
    simp [adapterItem, adapterName, adapterDesc, hn]
  · intro t hn
    simp [adapterItem, adapterName, adapterDesc, hn]
  · intro hn
    simp [adapterItem, adapterName, adapterDesc, hn]

/-- C14 as amended, at a list whose second entry has neither name nor
description: its item reads "No description  []" and has empty data. -/
theorem refreshAdapters_item_witness :
    (refreshAdapters ⟨0, [⟨some "eth0".toList, some "Intel".toList⟩, ⟨none, none⟩], []⟩
        []).1[1]? = some ⟨"No description  []".toList, []⟩ :=
  (refreshAdapters_item
    ⟨0, [⟨some "eth0".toList, some "Intel".toList⟩, ⟨none, none⟩], []⟩ [] 1 ⟨none, none⟩
    (by decide) rfl).1

/-- C15: for every list of entries the listing primitive returns successfully,
`refreshAdapters` leaves exactly one item for each entry, in the order of the
entries (the i-th item is made of the i-th entry), whatever items were listed
before, and the count it logs is the number of entries. -/
theorem refreshAdapters_items (found : FindAllDevs) (combo : List ComboItem)
    (hrc : found.rc ≠ -1) :
    (refreshAdapters found combo).1 = found.alldevs.map adapterItem ∧
      (refreshAdapters found combo).1.length = found.alldevs.length ∧
      (∀ i : Nat, (refreshAdapters found combo).1[i]? = (found.alldevs[i]?).map adapterItem) ∧
      (∀ combo' : List ComboItem,
        (refreshAdapters found combo').1 = (refreshAdapters found combo).1) ∧
      (refreshAdapters found combo).2 =
        [Event.log ("Adapters refreshed. Found: ".toList ++
          QString.number found.alldevs.length)] := by
  have h := refreshAdapters_ok found combo hrc
  refine ⟨by rw [h], by rw [h]; simp, ?_, ?_, by rw [h]⟩
  · intro i
    rw [h]
    exact List.getElem?_map _ _ _
  · intro combo'
    rw [h, refreshAdapters_ok found combo' hrc]

/-- C15 at a list of three entries, two of them with the same name, and a combo
box that held one item: three items in the order of the entries, count 3. -/
theorem refreshAdapters_items_witness :
    refreshAdapters ⟨0, [⟨some "eth1".toList, some "B".toList⟩,
        ⟨some "eth0".toList, some "A".toList⟩, ⟨some "eth1".toList, some "B".toList⟩], []⟩
        [⟨"old".toList, "old".toList⟩] =
      ([⟨"B  [eth1]".toList, "eth1".toList⟩, ⟨"A  [eth0]".toList, "eth0".toList⟩,
          ⟨"B  [eth1]".toList, "eth1".toList⟩],
        [Event.log "Adapters refreshed. Found: 3".toList]) :=
  have h := refreshAdapters_items ⟨0, [⟨some "eth1".toList, some "B".toList⟩,
    ⟨some "eth0".toList, some "A".toList⟩, ⟨some "eth1".toList, some "B".toList⟩], []⟩
    [⟨"old".toList, "old".toList⟩] (by decide)
  Prod.ext h.1 h.2.2.2.2

/-- C16: when the listing primitive reports failure (return code -1),
`refreshAdapters` leaves the adapter list empty whatever it held before and
its only event is the line "pcap_findalldevs failed: " followed by the
primitive's error text; no item is added and no "Found" count is logged. -/
theorem refreshAdapters_failure (found : FindAllDevs) (combo : List ComboItem)
    (hrc : found.rc = -1) :
    (refreshAdapters found combo).1 = [] ∧
      (refreshAdapters found combo).2 =
        [Event.log ("pcap_findalldevs failed: ".toList ++ found.errbuf)] ∧
      found.errbuf <:+ "pcap_findalldevs failed: ".toList ++ found.errbuf ∧
      (∀ t, Event.log ("Adapters refreshed. Found: ".toList ++ t) ∉
        (refreshAdapters found combo).2) := by
  have h : refreshAdapters found combo =
      ([], [Event.log ("pcap_findalldevs failed: ".toList ++ found.errbuf)]) := by
    unfold refreshAdapters
    dsimp only
    rw [if_pos hrc]
    rfl
  refine ⟨by rw [h], by rw [h], List.suffix_append _ _, ?_⟩
  intro t
  rw [h]
  simp

/-- C16 at a failure with the error text "no permission" and a combo box that
held one item. -/
theorem refreshAdapters_failure_witness :
    refreshAdapters ⟨-1, [], "no permission".toList⟩ [⟨"old".toList, "old".toList⟩] =
      ([], [Event.log "pcap_findalldevs failed: no permission".toList]) :=
  have h := refreshAdapters_failure ⟨-1, [], "no permission".toList⟩
    [⟨"old".toList, "old".toList⟩] rfl
  Prod.ext h.1 h.2.1

/-! ## The adapter handle, the missing adapter and the empty payload (claims C17 to C19) -/

/-- The two failures of the primitives are logged as different lines. -/
theorem open_failure_ne_send_failure (t t' : QString) :
    "pcap_open_live failed: ".toList ++ t ≠ "pcap_sendpacket failed: ".toList ++ t' := by
  intro h
  have h1 : ("pcap_open_live failed: ".toList ++ t)[5]? = some 'o' := rfl
  have h2 : ("pcap_sendpacket failed: ".toList ++ t')[5]? = some 's' := rfl
  rw [h, h2] at h1
  exact absurd h1 (by decide)

/-- C17: in every run of `sendFrame` the adapter handle is scoped.  Each of
open, send and close is called at most once; close is called exactly once if
and only if an open succeeded; after a successful open the run is the open,
the single send, the report and then the close of that handle, whether the
send succeeded or failed; after a failed open the run is the open and the
line "pcap_open_live failed: " with the primitive's text, with neither send nor
close; a failed send is logged as "pcap_sendpacket failed: " with the handle's
error text, a line different from that of a failed open. -/
theorem sendFrame_handle_scoped (pcap : Pcap) (ui : Form) :
    ((sendFrame pcap ui).filter Event.isOpen).length ≤ 1 ∧
      ((sendFrame pcap ui).filter Event.isSend).length ≤ 1 ∧
      ((sendFrame pcap ui).filter Event.isClose).length ≤ 1 ∧
      (((sendFrame pcap ui).filter Event.isClose).length = 1 ↔
        ∃ device a b c handle, Event.pcap_open_live device a b c ∈ sendFrame pcap ui ∧
          pcap.open_live device = Except.ok handle) ∧
      (∀ device a b c handle, Event.pcap_open_live device a b c ∈ sendFrame pcap ui →
        pcap.open_live device = Except.ok handle →
        ∃ frame report,
          sendFrame pcap ui =
            [Event.pcap_open_live device a b c,
              Event.pcap_sendpacket handle frame frame.length] ++ report ++
              [Event.pcap_close handle] ∧
          ∀ ev ∈ report, ev.isOpen = false ∧ ev.isSend = false ∧ ev.isClose = false) ∧
      (∀ device a b c errbuf, Event.pcap_open_live device a b c ∈ sendFrame pcap ui →
        pcap.open_live device = Except.error errbuf →
        sendFrame pcap ui =
          [Event.pcap_open_live device a b c,
            Event.log ("pcap_open_live failed: ".toList ++ errbuf)]) ∧
      (∀ handle frame size, Event.pcap_sendpacket handle frame size ∈ sendFrame pcap ui →
        pcap.sendpacket handle frame ≠ 0 →
        Event.log ("pcap_sendpacket failed: ".toList ++ pcap.geterr handle) ∈
          sendFrame pcap ui) ∧
      (∀ t t' : QString,
        "pcap_open_live failed: ".toList ++ t ≠ "pcap_sendpacket failed: ".toList ++ t') := by
  have hrej : ∀ m : QString, sendFrame pcap ui = [Event.log m] →
      ((sendFrame pcap ui).filter Event.isOpen).length ≤ 1 ∧
      ((sendFrame pcap ui).filter Event.isSend).length ≤ 1 ∧
      ((sendFrame pcap ui).filter Event.isClose).length ≤ 1 ∧
      (((sendFrame pcap ui).filter Event.isClose).length = 1 ↔
        ∃ device a b c handle, Event.pcap_open_live device a b c ∈ sendFrame pcap ui ∧
          pcap.open_live device = Except.ok handle) ∧
      (∀ device a b c handle, Event.pcap_open_live device a b c ∈ sendFrame pcap ui →
        pcap.open_live device = Except.ok handle →
        ∃ frame report,
          sendFrame pcap ui =
            [Event.pcap_open_live device a b c,
              Event.pcap_sendpacket handle frame frame.length] ++ report ++
              [Event.pcap_close handle] ∧
          ∀ ev ∈ report, ev.isOpen = false ∧ ev.isSend = false ∧ ev.isClose = false) ∧
      (∀ device a b c errbuf, Event.pcap_open_live device a b c ∈ sendFrame pcap ui →
        pcap.open_live device = Except.error errbuf →
        sendFrame pcap ui =
          [Event.pcap_open_live device a b c,
            Event.log ("pcap_open_live failed: ".toList ++ errbuf)]) ∧
      (∀ handle frame size, Event.pcap_sendpacket handle frame size ∈ sendFrame pcap ui →
        pcap.sendpacket handle frame ≠ 0 →
        Event.log ("pcap_sendpacket failed: ".toList ++ pcap.geterr handle) ∈
          sendFrame pcap ui) ∧
      (∀ t t' : QString,
        "pcap_open_live failed: ".toList ++ t ≠ "pcap_sendpacket failed: ".toList ++ t') := by
    intro m htr
    rw [htr]
    refine ⟨by simp [Event.isOpen], by simp [Event.isSend], by simp [Event.isClose],
      by simp [Event.isClose], ?_, ?_, ?_, open_failure_ne_send_failure⟩
    · intro device a b c handle hmem
      simp at hmem
    · intro device a b c errbuf hmem
      simp at hmem
    · intro handle frame size hmem
      simp at hmem
  rcases sendFrame_cases pcap ui with
    ⟨-, htr⟩ | ⟨-, -, htr⟩ | ⟨-, -, -, htr⟩ | ⟨-, -, -, -, htr⟩ |
    ⟨-, -, -, -, -, htr⟩ | ⟨-, -, -, -, htr⟩ |
    ⟨-, -, -, e, p, frame, device, -, -, -, -, -, hrun⟩
  · exact hrej _ htr
  · exact hrej _ htr
  · exact hrej _ htr
  · exact hrej _ htr
  · exact hrej _ htr
  · exact hrej _ htr
  · rcases hrun with ⟨errbuf, hopen, htr⟩ | ⟨handle, hopen, hrc, htr⟩ |
      ⟨handle, hopen, hrc, htr⟩
    · rw [htr]
      refine ⟨by simp [Event.isOpen], by simp [Event.isSend], by simp [Event.isClose],
        ?_, ?_, ?_, ?_, open_failure_ne_send_failure⟩
      · simp only [Event.isClose, List.filter_cons, List.filter_nil]
        constructor
        · intro h
          exact absurd h (by simp)
        · rintro ⟨device', a, b, c, handle', hmem, hok⟩
          simp at hmem
          rw [hmem.1, hopen] at hok
          exact absurd hok (by simp)
      · intro device' a b c handle' hmem hok
        simp at hmem
        rw [hmem.1, hopen] at hok
        exact absurd hok (by simp)
      · intro device' a b c errbuf' hmem herr
        simp at hmem
        obtain ⟨rfl, rfl, rfl, rfl⟩ := hmem
        rw [hopen] at herr
        have := Except.error.inj herr
        rw [this]
      · intro handle' frame' size hmem
        simp at hmem
    · rw [htr]
      refine ⟨by simp [Event.isOpen], by simp [Event.isSend], by simp [Event.isClose],
        ?_, ?_, ?_, ?_, open_failure_ne_send_failure⟩
      · simp only [Event.isClose, List.filter_cons, List.filter_nil]
        simp only [Bool.false_eq_true, if_false, if_true, List.length_singleton, true_iff]
        exact ⟨device, 65536, 1, 1000, handle, by simp, hopen⟩
      · intro device' a b c handle' hmem hok
        simp at hmem
        obtain ⟨rfl, rfl, rfl, rfl⟩ := hmem
        rw [hopen] at hok
        have := Except.ok.inj hok
        subst this
        refine ⟨frame, [Event.pcap_geterr handle,
          Event.log ("pcap_sendpacket failed: ".toList ++ pcap.geterr handle)], rfl, ?_⟩
        intro ev hev
        simp at hev
        rcases hev with rfl | rfl <;> exact ⟨rfl, rfl, rfl⟩
      · intro device' a b c errbuf' hmem herr
        simp at hmem
        rw [hmem.1, hopen] at herr
        exact absurd herr (by simp)
      · intro handle' frame' size hmem _
        simp at hmem
        obtain ⟨rfl, rfl, rfl⟩ := hmem
        simp
    · rw [htr]
      refine ⟨by simp [Event.isOpen], by simp [Event.isSend], by simp [Event.isClose],
        ?_, ?_, ?_, ?_, open_failure_ne_send_failure⟩
      · simp only [Event.isClose, List.filter_cons, List.filter_nil]
        simp only [Bool.false_eq_true, if_false, if_true, List.length_singleton, true_iff]
        exact ⟨device, 65536, 1, 1000, handle, by simp, hopen⟩
      · intro device' a b c handle' hmem hok
        simp at hmem
        obtain ⟨rfl, rfl, rfl, rfl⟩ := hmem
        rw [hopen] at hok
        have := Except.ok.inj hok
        subst this
        refine ⟨frame, [Event.log ("Sent OK. Bytes=".toList ++ QString.number frame.length ++
          " EtherType=0x".toList ++ QString.numberHexUpper e)], rfl, ?_⟩
        intro ev hev
        simp at hev
        rw [hev]
        exact ⟨rfl, rfl, rfl⟩
      · intro device' a b c errbuf' hmem herr
        simp at hmem
        rw [hmem.1, hopen] at herr
        exact absurd herr (by simp)
      · intro handle' frame' size hmem hne
        simp at hmem
        obtain ⟨rfl, rfl, rfl⟩ := hmem
        exact absurd hrc hne

/-- C17 at a run whose open gives handle 7 and whose send fails: close is called
exactly once. -/
theorem sendFrame_handle_scoped_witness :
    ((sendFrame ⟨fun _ => Except.ok 7, fun _ _ => -1, fun _ => "send error".toList⟩
        ⟨"eth0".toList, "AA:BB:CC:DD:EE:FF".toList, "11:22:33:44:55:66".toList,
          "0x88B5".toList, "DEAD".toList, true⟩).filter Event.isClose).length = 1 :=
  (sendFrame_handle_scoped ⟨fun _ => Except.ok 7, fun _ _ => -1, fun _ => "send error".toList⟩
    ⟨"eth0".toList, "AA:BB:CC:DD:EE:FF".toList, "11:22:33:44:55:66".toList,
      "0x88B5".toList, "DEAD".toList, true⟩).2.2.2.1.2
    ⟨[0x65, 0x74, 0x68, 0x30], 65536, 1, 1000, 7, by decide, rfl⟩

/-- C18: an empty adapter identifier takes precedence over every field check.
Whatever the four field texts and the hex box hold, `sendFrame` with no
adapter selected only logs "No adapter selected.": it logs no field error and
calls neither the open nor the send primitive. -/
theorem sendFrame_no_adapter (pcap : Pcap) (dstMac srcMac etherType payload : QString)
    (hex : Bool) :
    sendFrame pcap ⟨[], dstMac, srcMac, etherType, payload, hex⟩ =
        [Event.log "No adapter selected.".toList] ∧
      (∀ ev ∈ sendFrame pcap ⟨[], dstMac, srcMac, etherType, payload, hex⟩,
        ev.isOpen = false ∧ ev.isSend = false ∧ ev.isClose = false) ∧
      (∀ line ∈ ["Invalid Dst MAC.".toList, "Invalid Src MAC.".toList,
          "Invalid EtherType.".toList, "Invalid HEX payload.".toList, msgPayloadTooLarge],
        Event.log line ∉ sendFrame pcap ⟨[], dstMac, srcMac, etherType, payload, hex⟩) := by
  have h : sendFrame pcap ⟨[], dstMac, srcMac, etherType, payload, hex⟩ =
      [Event.log "No adapter selected.".toList] := by
    unfold sendFrame
    simp
  rw [h]
  refine ⟨rfl, ?_, ?_⟩
  · intro ev hev
    rw [List.mem_singleton.1 hev]
    exact ⟨rfl, rfl, rfl⟩
  · intro line hline hmem
    have hl : line = "No adapter selected.".toList :=
      (Event.log.inj (List.mem_singleton.1 hmem))
    rw [hl] at hline
    revert hline
    decide

/-- C18 at a form with no adapter and four invalid fields. -/
theorem sendFrame_no_adapter_witness :
    sendFrame ⟨fun _ => Except.ok 7, fun _ _ => 0, fun _ => []⟩
        ⟨[], "GG".toList, "".toList, "zz".toList, "ABC".toList, true⟩ =
      [Event.log "No adapter selected.".toList] :=
  (sendFrame_no_adapter ⟨fun _ => Except.ok 7, fun _ _ => 0, fun _ => []⟩ "GG".toList
    "".toList "zz".toList "ABC".toList true).1

/-- An empty or white-space-only text is an accepted hex payload of no bytes. -/
theorem parseHexPayload_isSpaces (w : QString) (hw : QString.isSpaces w = true) :
    parseHexPayload w = ([], true) := by
  have ht : QString.trimmed w = [] := by
    have := trimmed_pad w [] [] hw rfl
    rw [List.append_nil, List.append_nil] at this
    rw [this]
    rfl
  unfold parseHexPayload
  dsimp only
  rw [ht]
  rfl

/-- C19: an empty or white-space-only hex payload text is accepted:
`parseHexPayload` succeeds with no bytes, and with valid MAC addresses and
EtherType the built frame is the 14 header bytes followed by exactly 46 zero
bytes, 60 bytes in all, which is what `sendFrame` hands to the send primitive
once the adapter is open. -/
theorem parseHexPayload_blank (w : QString) (hw : QString.isSpaces w = true) :
    parseHexPayload w = ([], true) ∧
      parseHexPayload [] = ([], true) ∧
      (∀ (tDst tSrc tE : QString) (dst src : QByteArray) (e : Nat),
        parseMac tDst = (dst, true) → parseMac tSrc = (src, true) →
        parseEtherType tE = some e →
        buildFrame dst src e [] =
            some (dst ++ src ++ [e / 256, e % 256] ++ List.replicate 46 0) ∧
          (dst ++ src ++ [e / 256, e % 256]).length = 14 ∧
          (dst ++ src ++ [e / 256, e % 256] ++ List.replicate 46 0).length = 60) ∧
      (∀ (pcap : Pcap) (ui : Form) (dst src : QByteArray) (e handle : Nat),
        ui.comboAdapter ≠ [] → parseMac ui.editDstMac = (dst, true) →
        parseMac ui.editSrcMac = (src, true) → parseEtherType ui.editEtherType = some e →
        ui.checkHex = true → ui.editPayload = w →
        pcap.open_live ((QString.toUtf8 ui.comboAdapter).takeWhile (fun b => b != 0)) =
          Except.ok handle →
        Event.pcap_sendpacket handle
            (dst ++ src ++ [e / 256, e % 256] ++ List.replicate 46 0) 60 ∈
          sendFrame pcap ui) := by
  have hbuild : ∀ (tDst tSrc tE : QString) (dst src : QByteArray) (e : Nat),
      parseMac tDst = (dst, true) → parseMac tSrc = (src, true) →
      parseEtherType tE = some e →
      buildFrame dst src e [] =
          some (dst ++ src ++ [e / 256, e % 256] ++ List.replicate 46 0) ∧
        (dst ++ src ++ [e / 256, e % 256]).length = 14 ∧
        (dst ++ src ++ [e / 256, e % 256] ++ List.replicate 46 0).length = 60 := by
    intro tDst tSrc tE dst src e hd hs he
    have hdl := parseMac_length tDst dst hd
    have hsl := parseMac_length tSrc src hs
    obtain ⟨hb1, hb2⟩ := etherType_bytes e (parseEtherType_lt tE e he)
    refine ⟨?_, by simp [hdl, hsl], by simp [hdl, hsl]⟩
    rw [buildFrame_eq, if_neg (by simp), hb1, hb2]
    simp
  refine ⟨parseHexPayload_isSpaces w hw, parseHexPayload_isSpaces [] rfl, hbuild, ?_⟩
  intro pcap ui dst src e handle ha hd hs he hhex hw' hopen
  obtain ⟨hf, -, hlen⟩ := hbuild _ _ _ dst src e hd hs he
  have hp : readPayload ui = some [] := by
    unfold readPayload
    rw [hhex, hw', parseHexPayload_isSpaces w hw]
    rfl
  rw [sendFrame_transmits pcap ui dst src e [] _ handle ha hd hs he hp hf hopen, hlen]
  simp

/-- C19 at a hex payload text made of a space, a tab and a line feed. -/
theorem parseHexPayload_blank_witness :
    parseHexPayload " \t\n".toList = ([], true) ∧
      buildFrame [0xAA, 0xBB, 0xCC, 0xDD, 0xEE, 0xFF] [0x11, 0x22, 0x33, 0x44, 0x55, 0x66]
          0x88B5 [] =
        some ([0xAA, 0xBB, 0xCC, 0xDD, 0xEE, 0xFF] ++ [0x11, 0x22, 0x33, 0x44, 0x55, 0x66] ++
          [0x88B5 / 256, 0x88B5 % 256] ++ List.replicate 46 0) :=
  have h := parseHexPayload_blank " \t\n".toList (by decide)
  ⟨h.1, (h.2.2.1 "AA:BB:CC:DD:EE:FF".toList "11:22:33:44:55:66".toList "0x88B5".toList
    [0xAA, 0xBB, 0xCC, 0xDD, 0xEE, 0xFF] [0x11, 0x22, 0x33, 0x44, 0x55, 0x66] 0x88B5
    (by decide) (by decide) (by decide)).1⟩

end QtEthernet
